import Mathlib

/-!
# Verification development for `bitrise-step-generate-diff-image` (`main.go`)

The step compares a "before" and an "after" set of screenshots and writes, for
each after image whose diff artifact is kept, a PNG into an output directory.

The Go program is embedded shallowly:

* the operating system is a flat map from path strings to nodes, threaded
  explicitly together with a chronological trace of the system and library
  calls the program makes;
* the image codec (`image.Decode`, `png.Encode`) and the diff library
  (`diffimage.DiffImage`) are external collaborators and are parameters of the
  model (`Collab`);
* the Go standard-library path functions used by `main.go` (`path.Join`,
  `path.Base`, `filepath.Ext`) are modelled after their documented behaviour.

Scope of the operating-system model: a path is looked up as the string the
program passes; the listing of a directory is part of its node and is not
changed when an entry is created in it (the program reads a listing once,
before it writes anything into the output directory); a new file or directory
receives the requested permission bits less the umask of the process;
permission checks are not modelled, so an existing regular file can always be
opened, and a path that cannot be examined at all is the node `inaccessible`.
-/

namespace DiffImage

/-! ## Paths (Go `path` / `path/filepath`, Unix separators) -/

/-- A path is a string, as in Go. -/
abbrev Path := String

/-- Split a character list at every slash; `"a//b"` gives `["a", "", "b"]`. -/
def splitSlash : List Char → List (List Char)
  | [] => [[]]
  | c :: cs =>
    match splitSlash cs with
    | [] => [[]]
    | h :: t => if c = '/' then [] :: h :: t else (c :: h) :: t

/-- One step of `path.Clean` over path elements; `acc` is the stack of kept
elements, innermost first. -/
def cleanStep (rooted : Bool) (acc : List (List Char)) (e : List Char) : List (List Char) :=
  if e = [] ∨ e = ['.'] then acc
  else if e = ['.', '.'] then
    match acc with
    | [] => if rooted then [] else [e]
    | top :: rest => if top = ['.', '.'] then e :: acc else rest
  else e :: acc

/-- Join path elements with single slashes. -/
def joinSlash : List (List Char) → List Char
  | [] => []
  | [e] => e
  | e :: es => e ++ '/' :: joinSlash es

/-- Go `path.Clean`: the shortest path equivalent to the argument by purely
lexical processing. -/
def cleanChars (p : List Char) : List Char :=
  let rooted := p.head? = some '/'
  let kept := ((splitSlash p).foldl (cleanStep rooted) []).reverse
  let body := joinSlash kept
  if rooted then '/' :: body
  else if body = [] then ['.'] else body

/-- Go `path.Join` for two elements: empty elements are ignored, the rest are
joined with a slash and cleaned; the result is empty when both are empty. -/
def pathJoin (a b : Path) : Path :=
  if a.data = [] ∧ b.data = [] then ""
  else if a.data = [] then String.mk (cleanChars b.data)
  else if b.data = [] then String.mk (cleanChars a.data)
  else String.mk (cleanChars (a.data ++ '/' :: b.data))

/-- Drop trailing slashes from a reversed character list. -/
def dropSlashes : List Char → List Char
  | [] => []
  | c :: cs => if c = '/' then dropSlashes cs else c :: cs

/-- Go `path.Base`: the last element of the path, after removing trailing
slashes; `"."` for the empty path and `"/"` for a path of slashes only. -/
def pathBase (p : Path) : Path :=
  if p.data = [] then "."
  else
    let stripped := dropSlashes p.data.reverse
    let last := (stripped.takeWhile (fun c => c != '/')).reverse
    if last = [] then "/" else String.mk last

/-- Scan of `filepath.Ext` from the end of the name: `acc` holds the characters
already passed, in path order. -/
def extScan : List Char → List Char → List Char
  | [], _ => []
  | c :: cs, acc =>
    if c = '/' then []
    else if c = '.' then c :: acc
    else extScan cs (c :: acc)

/-- Go `filepath.Ext`: the suffix beginning at the final dot in the final
element of the path, empty if there is no dot. -/
def filepathExt (p : Path) : String :=
  String.mk (extScan p.data.reverse [])

/-- Go `path.Dir`: everything up to the last slash, cleaned. The file-system
model uses it to find the directory that holds an entry. -/
def pathDir (p : Path) : Path :=
  String.mk (cleanChars (p.data.reverse.dropWhile (fun c => c != '/')).reverse)

/-! ## Operating-system model -/

/-- Go `os.FileMode`, a 32-bit word. -/
abbrev FileMode := Nat

/-- The directory bit `os.ModeDir` (`1 << 31`). -/
def ModeDir : FileMode := 2 ^ 31

/-- The permission mask `os.ModePerm` (`0777`). -/
def ModePerm : FileMode := 511

/-- Go `FileMode.IsDir`: `m&ModeDir != 0`, the test of bit 31. -/
def IsDir (m : FileMode) : Bool := decide (m / ModeDir % 2 = 1)

/-- What a path names. `bits` are the mode bits other than the directory bit
(permission bits and the like); a directory carries the names `ioutil.ReadDir`
returns for it, in that order, or `none` when it cannot be listed.
`inaccessible` stands for a path whose `stat` fails with an error other than
"does not exist". -/
inductive Node
  | absent
  | file (bits : Nat) (data : List Nat)
  | dir (bits : Nat) (listing : Option (List String))
  | inaccessible
  deriving DecidableEq, Repr

/-- Go `error` values the program can observe. -/
inductive Err
  | notExist
  | isDirectory
  | notDirectory
  | exists
  | access
  | decode
  | encode
  | modeMismatch
  | parse
  deriving DecidableEq, Repr

/-- Equality of call results is decidable. -/
instance instDecidableEqExcept {α : Type} [DecidableEq α] : DecidableEq (Except Err α) :=
  fun a b =>
    match a, b with
    | .error e, .error f =>
      if h : e = f then isTrue (by rw [h]) else isFalse (fun h2 => h (by cases h2; rfl))
    | .ok x, .ok y =>
      if h : x = y then isTrue (by rw [h]) else isFalse (fun h2 => h (by cases h2; rfl))
    | .error _, .ok _ => isFalse (fun h2 => by cases h2)
    | .ok _, .error _ => isFalse (fun h2 => by cases h2)

/-- System and library calls, recorded in program order. -/
inductive Event
  | stat (p : Path)
  | open (p : Path)
  | decode (p : Path)
  | openFile (p : Path)
  | encode (p : Path) (bytes : List Nat)
  | mkdir (p : Path)
  | readDir (p : Path)
  | generate (beforeFn afterFn outputDir : Path)
  | export (value : Path)
  deriving DecidableEq, Repr

/-- The file system, the trace of calls made so far, and the file mode creation
mask of the process. -/
structure World where
  fs : Path → Node
  trace : List Event
  umask : Nat

/-- The permission bits a new entry receives: the requested ones without the
bits of the file mode creation mask (`perm &^ umask`). -/
def applyUmask (perm umask : Nat) : Nat := perm - (perm &&& umask)

/-- Append one event to the trace. -/
def World.log (w : World) (e : Event) : World :=
  { w with trace := w.trace ++ [e] }

/-- Replace the node at one path. -/
def World.setNode (w : World) (p : Path) (n : Node) : World :=
  { w with fs := fun q => if q = p then n else w.fs q }

/-- The mode `stat` reports for a node. -/
def statNode : Node → Except Err FileMode
  | .absent => .error .notExist
  | .inaccessible => .error .access
  | .file bits _ => .ok (bits % ModeDir)
  | .dir bits _ => .ok (ModeDir + bits % ModeDir)

/-- Go `os.Stat`. -/
def osStat (w : World) (p : Path) : Except Err FileMode × World :=
  (statNode (w.fs p), w.log (.stat p))

/-- Go `os.IsNotExist` applied to the error of a call. -/
def isNotExist {α : Type} : Except Err α → Bool
  | .error .notExist => true
  | _ => false

/-- Go `os.Open`: a read handle. The handle yields the file's bytes; a handle
on a directory (`none`) can be opened but not read. -/
def osOpen (w : World) (p : Path) : Except Err (Option (List Nat)) × World :=
  (match w.fs p with
    | .absent => .error .notExist
    | .inaccessible => .error .access
    | .file _ data => .ok (some data)
    | .dir _ _ => .ok none,
   w.log (.open p))

/-- Whether a node is a directory. -/
def Node.isDir : Node → Bool
  | .dir _ _ => true
  | _ => false

/-- Whether a node is a regular file. -/
def Node.isFile : Node → Bool
  | .file _ _ => true
  | _ => false

/-- Whether `os.OpenFile(p, os.O_WRONLY|os.O_CREATE, 0644)` succeeds on a file
system: the path names a file, or names nothing inside an existing directory. -/
def canOpen (fs : Path → Node) (p : Path) : Bool :=
  match fs p with
  | .file _ _ => true
  | .absent => (fs (pathDir p)).isDir
  | _ => false

/-- Go `os.OpenFile(p, os.O_WRONLY|os.O_CREATE, 0644)`: an existing file is
opened as it is, with the offset at 0; a missing one is created empty with
permission `0644` less the umask when its directory exists. -/
def osOpenFile (w : World) (p : Path) : Except Err Unit × World :=
  match w.fs p with
  | .file _ _ => (.ok (), w.log (.openFile p))
  | .dir _ _ => (.error .isDirectory, w.log (.openFile p))
  | .inaccessible => (.error .access, w.log (.openFile p))
  | .absent =>
    if (w.fs (pathDir p)).isDir then
      (.ok (), (w.setNode p (.file (applyUmask 420 w.umask) [])).log (.openFile p))
    else (.error .notExist, w.log (.openFile p))

/-- Bytes of a file after writing `bytes` through a fresh handle: the write
starts at offset 0 and replaces as many bytes as it is long. -/
def overwrite (old bytes : List Nat) : List Nat :=
  bytes ++ old.drop bytes.length

/-- Write through the handle `os.OpenFile` returned for `p`. -/
def writeNode (bytes : List Nat) : Node → Node
  | .file bits data => .file bits (overwrite data bytes)
  | n => n

/-- Go `os.Mkdir(p, perm)`: the new directory has permission `perm` less the
umask. -/
def osMkdir (w : World) (p : Path) (perm : FileMode) : Except Err Unit × World :=
  match w.fs p with
  | .absent =>
    if (w.fs (pathDir p)).isDir then
      (.ok (), (w.setNode p (.dir (applyUmask perm w.umask) (some []))).log (.mkdir p))
    else (.error .notExist, w.log (.mkdir p))
  | .inaccessible => (.error .access, w.log (.mkdir p))
  | _ => (.error .exists, w.log (.mkdir p))

/-- The listing `ioutil.ReadDir` obtains from a node. -/
def readDirNode : Node → Except Err (List String)
  | .dir _ (some names) => .ok names
  | .dir _ none => .error .access
  | .file _ _ => .error .notDirectory
  | .absent => .error .notExist
  | .inaccessible => .error .access

/-- Go `ioutil.ReadDir`: the names of the entries of a directory. -/
def ioutilReadDir (w : World) (p : Path) : Except Err (List String) × World :=
  (readDirNode (w.fs p), w.log (.readDir p))

/-! ## Images and the external collaborators -/

/-- Go `image.Point`. -/
structure Point where
  X : Int
  Y : Int
  deriving DecidableEq, Repr

/-- Go `image.Rectangle`; `==` on it is field-wise equality. -/
structure Rectangle where
  Min : Point
  Max : Point
  deriving DecidableEq, Repr

/-- Go `image.Rect`: the rectangle with the given corners, put in order. -/
def Rect (x0 y0 x1 y1 : Int) : Rectangle :=
  { Min := ⟨if x0 > x1 then x1 else x0, if y0 > y1 then y1 else y0⟩
    Max := ⟨if x0 > x1 then x0 else x1, if y0 > y1 then y0 else y1⟩ }

/-- A decoded raster: its bounds and its pixel data. -/
structure Image where
  bounds : Rectangle
  pix : List Nat
  deriving DecidableEq, Repr

/-- The image `image.NewRGBA(image.Rect(0, 0, 0, 0))`. -/
def emptyImage : Image := { bounds := Rect 0 0 0 0, pix := [] }

/-- The libraries the program delegates to: `image.Decode`, `png.Encode`
(the bytes it writes and the error it returns) and `diffimage.DiffImage`. -/
structure Collab where
  decode : List Nat → Option Image
  encode : Image → List Nat × Option Err
  diff : Image → Image → Image

/-- Go `image.Decode` on a read handle for `p`. -/
def imageDecode (c : Collab) (w : World) (file : Option (List Nat)) (p : Path) :
    Except Err Image × World :=
  (match file with
    | none => .error .isDirectory
    | some data =>
      match c.decode data with
      | none => .error .decode
      | some img => .ok img,
   w.log (.decode p))

/-- Go `png.Encode(file, img)` on the write handle for `p`. -/
def pngEncode (c : Collab) (w : World) (p : Path) (img : Image) : Option Err × World :=
  ((c.encode img).2,
   (w.setNode p (writeNode (c.encode img).1 (w.fs p))).log (.encode p (c.encode img).1))

/-! ## The program (`main.go`) -/

/-- Translation of `loadImage` (main.go 24-42). -/
def loadImage (c : Collab) (w : World) (fileName : Path) : Except Err Image × World :=
  let st := osStat w fileName
  if isNotExist st.1 then (.ok emptyImage, st.2)
  else
    match osOpen st.2 fileName with
    | (.error e, w1) => (.error e, w1)
    | (.ok file, w1) =>
      match imageDecode c w1 file fileName with
      | (.error e, w2) => (.error e, w2)
      | (.ok img, w2) => (.ok img, w2)

/-- Translation of `saveImage` (main.go 44-52). The value `png.Encode`
returns is dropped, as in the source. -/
def saveImage (c : Collab) (w : World) (img : Image) (fileName : Path) : Option Err × World :=
  match osOpenFile w fileName with
  | (.error e, w1) => (some e, w1)
  | (.ok _, w1) => (none, (pngEncode c w1 fileName img).2)

/-- Translation of `generateDiffImage` (main.go 54-74). -/
def generateDiffImage (c : Collab) (w : World) (beforeFn afterFn outputDir : Path) :
    Option Err × World :=
  match loadImage c (w.log (.generate beforeFn afterFn outputDir)) beforeFn with
  | (.error e, w1) => (some e, w1)
  | (.ok beforeImage, w1) =>
    match loadImage c w1 afterFn with
    | (.error e, w2) => (some e, w2)
    | (.ok afterImage, w2) =>
      let diffImage := c.diff beforeImage afterImage
      if beforeImage.bounds = diffImage.bounds then (none, w2)
      else
        let outputFn := pathJoin outputDir (pathBase afterFn)
        match saveImage c w2 diffImage outputFn with
        | (some e, w3) => (some e, w3)
        | (none, w3) => (none, w3)

/-- Translation of `validateFileModes` (main.go 76-89). -/
def validateFileModes (w : World) (before after : Path) : Except Err FileMode × World :=
  match osStat w before with
  | (.error e, w1) => (.error e, w1)
  | (.ok beforeMode, w1) =>
    match osStat w1 after with
    | (.error e, w2) => (.error e, w2)
    | (.ok afterMode, w2) =>
      if beforeMode ≠ afterMode then (.error .modeMismatch, w2)
      else (.ok afterMode, w2)

/-- The step configuration (`Config`, main.go 19-22). -/
structure Config where
  BeforeImages : String
  AfterImages : String
  deriving DecidableEq, Repr

/-- What the process receives from outside: the result of `stepconf.Parse`,
the value of `BITRISE_SOURCE_DIR`, and whether the `bitrise envman add`
command succeeds for a given value. -/
structure Env where
  parse : Except Err Config
  sourceDir : String
  envman : Path → Bool

/-- The output directory (main.go 99). -/
def outputDirOf (env : Env) : Path := pathJoin env.sourceDir "diff_image_output"

/-- Creation of the output directory when `stat` says it does not exist
(main.go 100-102); the result of `os.Mkdir` is ignored. -/
def prepareOutputDir (w : World) (outputDir : Path) : World :=
  let st := osStat w outputDir
  if isNotExist st.1 then (osMkdir st.2 outputDir ModePerm).2 else st.2

/-- The loop over the directory listing (main.go 117-124). -/
def processListing (c : Collab) (before after outputDir : Path) : List String → World → World
  | [], w => w
  | name :: rest, w =>
    if filepathExt name ≠ ".png" then processListing c before after outputDir rest w
    else
      let beforeFn := pathJoin before name
      let afterFn := pathJoin after name
      processListing c before after outputDir rest
        (generateDiffImage c w beforeFn afterFn outputDir).2

/-- The export of the output directory through `bitrise envman` and the final
exit code (main.go 129-134). -/
def exportAndExit (env : Env) (w : World) (outputDir : Path) : Nat × World :=
  if env.envman outputDir then (0, w.log (.export outputDir))
  else (1, w.log (.export outputDir))

/-- Translation of `main` (main.go 91-135): the exit code and the final world. -/
def main (c : Collab) (env : Env) (w : World) : Nat × World :=
  match env.parse with
  | .error _ => (1, w)
  | .ok conf =>
    let outputDir := outputDirOf env
    let w1 := prepareOutputDir w outputDir
    let before := conf.BeforeImages
    let after := conf.AfterImages
    match validateFileModes w1 before after with
    | (.error _, w2) => (1, w2)
    | (.ok fileMode, w2) =>
      if IsDir fileMode then
        match ioutilReadDir w2 after with
        | (.error _, w3) => (1, w3)
        | (.ok files, w3) =>
          exportAndExit env (processListing c before after outputDir files w3) outputDir
      else
        exportAndExit env (generateDiffImage c w2 before after outputDir).2 outputDir

/-! ## Observations on traces -/

/-- The `generateDiffImage` calls of a trace, as (before, after) pairs. -/
def calls : List Event → List (Path × Path)
  | [] => []
  | .generate b a _ :: t => (b, a) :: calls t
  | _ :: t => calls t

/-- The paths written through `png.Encode` in a trace. -/
def written : List Event → List Path
  | [] => []
  | .encode p _ :: t => p :: written t
  | _ :: t => written t

/-- The node a successful `saveImage` leaves at its destination when the
encoder wrote `bytes`: an existing file keeps its mode bits and the bytes past
the written ones, a new file holds exactly the written bytes. -/
def savedNode (umask : Nat) (bytes : List Nat) : Node → Node
  | .file bits data => .file bits (overwrite data bytes)
  | _ => .file (applyUmask 420 umask) bytes

/-- The artifact `generateDiffImage` hands to `saveImage` in a world, if any:
both loads succeed and the bounds of the before image and of the diff differ. -/
def keptArtifact (c : Collab) (w : World) (beforeFn afterFn : Path) : Option Image :=
  match (loadImage c w beforeFn).1, (loadImage c w afterFn).1 with
  | .ok beforeImage, .ok afterImage =>
    if beforeImage.bounds = (c.diff beforeImage afterImage).bounds then none
    else some (c.diff beforeImage afterImage)
  | _, _ => none

/-! ## Sample collaborators and file systems -/

/-- A sample codec: a file holds the width, the height and then the pixels;
encoding rejects an image without area, as `png.Encode` does. -/
def sampleDecode : List Nat → Option Image
  | wd :: ht :: pix => some { bounds := Rect 0 0 wd ht, pix := pix }
  | _ => none

/-- Encoder of the sample codec. -/
def sampleEncode (img : Image) : List Nat × Option Err :=
  if img.bounds.Max.X ≤ img.bounds.Min.X ∨ img.bounds.Max.Y ≤ img.bounds.Min.Y then
    ([], some .encode)
  else
    ((img.bounds.Max.X - img.bounds.Min.X).toNat ::
      (img.bounds.Max.Y - img.bounds.Min.Y).toNat :: img.pix, none)

/-- A diff that returns the before image when the two images are equal and
otherwise stacks the rows of both, so that its artifact is taller. -/
def stackDiff (b a : Image) : Image :=
  if b = a then b
  else
    { bounds := Rect 0 0 (max b.bounds.Max.X a.bounds.Max.X) (b.bounds.Max.Y + a.bounds.Max.Y)
      pix := b.pix ++ a.pix }

/-- A diff that reports every difference in the bounds of its artifact: for
equal images it returns the before image, otherwise the rows of both images
under bounds one row taller than those of the before image. -/
def tallerDiff (b a : Image) : Image :=
  if b = a then b
  else
    { bounds := { Min := b.bounds.Min, Max := ⟨b.bounds.Max.X, b.bounds.Max.Y + 1⟩ }
      pix := b.pix ++ a.pix }

/-- Sample collaborators with the stacking diff. -/
def stackCollab : Collab :=
  { decode := sampleDecode, encode := sampleEncode, diff := stackDiff }

/-- Sample collaborators whose diff reports every difference in the bounds. -/
def tallerCollab : Collab :=
  { decode := sampleDecode, encode := sampleEncode, diff := tallerDiff }

/-- A source tree with a before and an after directory; the output directory
`/src/diff_image_output` does not exist yet. -/
def sampleFs : Path → Node := fun p =>
  if p = "/src" then .dir 493 (some ["after", "before"])
  else if p = "/src/before" then .dir 493 (some ["shot.png"])
  else if p = "/src/after" then .dir 493 (some ["new.png", "notes.txt", "shot.png", "up.PNG"])
  else if p = "/src/before/shot.png" then .file 420 [1, 1, 7]
  else if p = "/src/after/shot.png" then .file 420 [1, 1, 8]
  else if p = "/src/after/new.png" then .file 420 [1, 1, 5]
  else if p = "/src/after/notes.txt" then .file 420 [104, 105]
  else if p = "/src/after/up.PNG" then .file 420 [1, 1, 3]
  else .absent

/-- A run over the two directories of `sampleFs`. -/
def dirEnv : Env :=
  { parse := .ok { BeforeImages := "/src/before", AfterImages := "/src/after" }
    sourceDir := "/src"
    envman := fun _ => true }

/-- A run whose before root is a directory and whose after root is a file. -/
def mixedEnv : Env :=
  { parse := .ok { BeforeImages := "/src/before", AfterImages := "/src/after/shot.png" }
    sourceDir := "/src"
    envman := fun _ => true }

/-- A run whose before root is the output directory itself, which does not
exist on `sampleFs`, and whose after root is the after directory. -/
def outputRootEnv : Env :=
  { parse := .ok { BeforeImages := "/src/diff_image_output", AfterImages := "/src/after" }
    sourceDir := "/src"
    envman := fun _ => true }

/-- Two regular files that differ in their permission bits only
(`0644` and `0600`). -/
def permFs : Path → Node := fun p =>
  if p = "b.png" then .file 420 [1, 1, 7]
  else if p = "a.png" then .file 384 [1, 1, 8]
  else .absent

/-- The tree `sampleFs` once the output directory exists. -/
def readyFs : Path → Node := fun p =>
  if p = "/src/diff_image_output" then .dir 493 (some []) else sampleFs p

/-- The tree `readyFs` with an output file left by an earlier run, longer than
the encoding the next run writes. -/
def staleFs : Path → Node := fun p =>
  if p = "/src/diff_image_output/shot.png" then .file 420 [9, 9, 9, 9, 9, 9] else readyFs p

/-- Collaborators whose encoder fails after the first bytes of the file, as
`png.Encode` does when a write to the destination fails. -/
def failingEncodeCollab : Collab :=
  { decode := sampleDecode
    encode := fun _ => ([137, 80, 78, 71], some .encode)
    diff := stackDiff }

/-- The tree `sampleFs` with a corrupt `new.png` on the after side. -/
def brokenFs : Path → Node := fun p =>
  if p = "/src/after/new.png" then .file 420 [1] else sampleFs p

/-- The pairs the loop of `main` resolves from a listing: the names with
extension `.png`, joined to the two roots. -/
def resolvedPairs (before after : Path) (names : List String) : List (Path × Path) :=
  (names.filter (fun name => decide (filepathExt name = ".png"))).map
    (fun name => (pathJoin before name, pathJoin after name))

/-- The before and after paths of a list of pairs. -/
def pairPaths : List (Path × Path) → List Path
  | [] => []
  | (b, a) :: t => b :: a :: pairPaths t

/-- How a file system can evolve while pairs are processed: a node either
stays as it is, or a path that was not a directory now names a file. -/
def Grows (g h : Path → Node) : Prop :=
  ∀ p, h p = g p ∨ ((g p).isDir = false ∧ (h p).isFile = true)

/-! ## Basic facts about the primitives -/

@[simp] theorem log_fs (w : World) (e : Event) : (w.log e).fs = w.fs := rfl

@[simp] theorem log_trace (w : World) (e : Event) : (w.log e).trace = w.trace ++ [e] := rfl

@[simp] theorem log_umask (w : World) (e : Event) : (w.log e).umask = w.umask := rfl

@[simp] theorem setNode_umask (w : World) (p : Path) (n : Node) :
    (w.setNode p n).umask = w.umask := rfl

@[simp] theorem setNode_trace (w : World) (p : Path) (n : Node) :
    (w.setNode p n).trace = w.trace := rfl

@[simp] theorem setNode_fs (w : World) (p : Path) (n : Node) (q : Path) :
    (w.setNode p n).fs q = if q = p then n else w.fs q := rfl

theorem statNode_isDir {n : Node} {m : FileMode} (h : statNode n = .ok m) :
    IsDir m = n.isDir := by
  cases n <;> simp [statNode] at h <;> subst h <;> simp [IsDir, Node.isDir, ModeDir]

theorem validateFileModes_fs (w : World) (b a : Path) :
    (validateFileModes w b a).2.fs = w.fs := by
  unfold validateFileModes osStat
  cases statNode (w.fs b) <;> simp
  cases statNode (w.fs a) <;> simp
  split <;> simp

theorem validateFileModes_ok_iff_aux (w : World) (b a : Path) (m : FileMode) :
    (validateFileModes w b a).1 = .ok m ↔
      statNode (w.fs b) = .ok m ∧ statNode (w.fs a) = .ok m := by
  unfold validateFileModes osStat
  cases hb : statNode (w.fs b) <;> simp
  cases ha : statNode (w.fs a) <;> simp
  split
  · rename_i h
    subst h
    simp
  · rename_i h
    simp only [reduceCtorEq, false_iff, not_and]
    intro h1 h2
    exact h (h1.trans h2.symm)

theorem calls_append (t u : List Event) : calls (t ++ u) = calls t ++ calls u := by
  induction t with
  | nil => rfl
  | cons e t ih => cases e <;> simp [calls, ih]

theorem written_append (t u : List Event) : written (t ++ u) = written t ++ written u := by
  induction t with
  | nil => rfl
  | cons e t ih => cases e <;> simp [written, ih]

theorem prepareOutputDir_trace (w : World) (o : Path) :
    calls (prepareOutputDir w o).trace = calls w.trace ∧
      written (prepareOutputDir w o).trace = written w.trace := by
  cases h : w.fs o <;>
    simp [prepareOutputDir, osStat, osMkdir, statNode, isNotExist, h, calls_append,
      written_append, calls, written]
  split <;> simp [calls_append, written_append, calls, written]

theorem validateFileModes_trace (w : World) (b a : Path) :
    calls (validateFileModes w b a).2.trace = calls w.trace ∧
      written (validateFileModes w b a).2.trace = written w.trace := by
  unfold validateFileModes osStat
  cases statNode (w.fs b) <;> simp [calls_append, written_append, calls, written]
  cases statNode (w.fs a) <;> simp [calls_append, written_append, calls, written]
  split <;> simp [calls_append, written_append, calls, written]

theorem validateFileModes_error_of_roots (w : World) (b a : Path)
    (h : ((w.fs b).isDir = true ∧ (w.fs a).isFile = true) ∨
      ((w.fs b).isFile = true ∧ (w.fs a).isDir = true) ∨
      (∃ e, statNode (w.fs b) = .error e) ∨ (∃ e, statNode (w.fs a) = .error e)) :
    ∃ e, (validateFileModes w b a).1 = .error e := by
  cases hv : (validateFileModes w b a).1 with
  | error e => exact ⟨e, rfl⟩
  | ok m =>
    exfalso
    obtain ⟨hb, ha⟩ := (validateFileModes_ok_iff_aux w b a m).1 hv
    have hdb := statNode_isDir hb
    have hda := statNode_isDir ha
    rcases h with ⟨h1, h2⟩ | ⟨h1, h2⟩ | ⟨e, he⟩ | ⟨e, he⟩
    · cases hn : w.fs a <;> simp_all [Node.isFile, Node.isDir]
    · cases hn : w.fs b <;> simp_all [Node.isFile, Node.isDir]
    · rw [hb] at he; cases he
    · rw [ha] at he; cases he

theorem main_of_validate_error (c : Collab) (env : Env) (w : World) (conf : Config)
    (hparse : env.parse = .ok conf) (e : Err)
    (hv : (validateFileModes (prepareOutputDir w (outputDirOf env))
      conf.BeforeImages conf.AfterImages).1 = .error e) :
    main c env w = (1, (validateFileModes (prepareOutputDir w (outputDirOf env))
      conf.BeforeImages conf.AfterImages).2) := by
  unfold main
  rw [hparse]
  simp only
  split
  · rename_i h; simp [h]
  · rename_i h; rw [h] at hv; cases hv

theorem loadImage_fs (c : Collab) (w : World) (p : Path) :
    (loadImage c w p).2.fs = w.fs := by
  unfold loadImage osStat osOpen imageDecode
  cases h : w.fs p <;> simp [statNode, isNotExist, h]
  · cases c.decode _ <;> simp

theorem loadImage_umask (c : Collab) (w : World) (p : Path) :
    (loadImage c w p).2.umask = w.umask := by
  unfold loadImage osStat osOpen imageDecode
  cases h : w.fs p <;> simp [statNode, isNotExist, h]
  · cases c.decode _ <;> simp

theorem loadImage_obs (c : Collab) (w : World) (p : Path) :
    calls (loadImage c w p).2.trace = calls w.trace ∧
      written (loadImage c w p).2.trace = written w.trace := by
  unfold loadImage osStat osOpen imageDecode
  cases h : w.fs p <;>
    simp [statNode, isNotExist, h, calls_append, written_append, calls, written]
  · cases c.decode _ <;> simp [calls_append, written_append, calls, written]

theorem loadImage_fst_congr (c : Collab) (w w2 : World) (p : Path) (h : w.fs p = w2.fs p) :
    (loadImage c w p).1 = (loadImage c w2 p).1 := by
  unfold loadImage osStat osOpen imageDecode
  simp only [log_fs, ← h]
  cases w.fs p <;> simp [statNode, isNotExist]
  · cases c.decode _ <;> simp

theorem loadImage_absent (c : Collab) (w : World) (p : Path) (h : w.fs p = .absent) :
    loadImage c w p = (.ok emptyImage, w.log (.stat p)) := by
  simp [loadImage, osStat, h, statNode, isNotExist]

theorem osOpenFile_ok_iff (w : World) (p : Path) :
    (osOpenFile w p).1 = .ok () ↔ canOpen w.fs p = true := by
  unfold osOpenFile canOpen
  cases w.fs p <;> simp
  split <;> simp_all

theorem saveImage_of_canOpen (c : Collab) (w : World) (img : Image) (p : Path)
    (h : canOpen w.fs p = true) :
    (saveImage c w img p).1 = none ∧
    (∀ q, (saveImage c w img p).2.fs q =
      if q = p then savedNode w.umask (c.encode img).1 (w.fs p) else w.fs q) ∧
    written (saveImage c w img p).2.trace = written w.trace ++ [p] ∧
    calls (saveImage c w img p).2.trace = calls w.trace := by
  unfold saveImage osOpenFile pngEncode
  unfold canOpen at h
  cases hn : w.fs p <;> rw [hn] at h <;>
    simp_all [savedNode, writeNode, overwrite, calls_append, written_append, calls, written]

theorem saveImage_of_not_canOpen (c : Collab) (w : World) (img : Image) (p : Path)
    (h : canOpen w.fs p = false) :
    (∃ e, (saveImage c w img p).1 = some e) ∧
    (saveImage c w img p).2.fs = w.fs ∧
    written (saveImage c w img p).2.trace = written w.trace ∧
    calls (saveImage c w img p).2.trace = calls w.trace := by
  unfold saveImage osOpenFile
  unfold canOpen at h
  cases hn : w.fs p <;> rw [hn] at h <;>
    simp_all [calls_append, written_append, calls, written]

theorem generateDiffImage_spec (c : Collab) (w : World) (b a o : Path) :
    calls (generateDiffImage c w b a o).2.trace = calls w.trace ++ [(b, a)] ∧
    (∀ d, keptArtifact c w b a = some d → canOpen w.fs (pathJoin o (pathBase a)) = true →
      (generateDiffImage c w b a o).1 = none ∧
      (∀ q, (generateDiffImage c w b a o).2.fs q =
        if q = pathJoin o (pathBase a) then
          savedNode w.umask (c.encode d).1 (w.fs (pathJoin o (pathBase a)))
        else w.fs q) ∧
      written (generateDiffImage c w b a o).2.trace =
        written w.trace ++ [pathJoin o (pathBase a)]) ∧
    (∀ d, keptArtifact c w b a = some d → canOpen w.fs (pathJoin o (pathBase a)) = false →
      (∃ e, (generateDiffImage c w b a o).1 = some e) ∧
      (generateDiffImage c w b a o).2.fs = w.fs ∧
      written (generateDiffImage c w b a o).2.trace = written w.trace) ∧
    (keptArtifact c w b a = none →
      (generateDiffImage c w b a o).2.fs = w.fs ∧
      written (generateDiffImage c w b a o).2.trace = written w.trace) ∧
    (∀ bi ai, (loadImage c w b).1 = .ok bi → (loadImage c w a).1 = .ok ai →
      bi.bounds = (c.diff bi ai).bounds → (generateDiffImage c w b a o).1 = none) ∧
    (∀ e, (loadImage c w b).1 = .error e → (generateDiffImage c w b a o).1 = some e) ∧
    (∀ bi e, (loadImage c w b).1 = .ok bi → (loadImage c w a).1 = .error e →
      (generateDiffImage c w b a o).1 = some e) := by
  unfold generateDiffImage keptArtifact
  have e1 := loadImage_fst_congr c (w.log (.generate b a o)) w b rfl
  have f1 := loadImage_fs c (w.log (.generate b a o)) b
  have o1 := loadImage_obs c (w.log (.generate b a o)) b
  rcases h1 : loadImage c (w.log (.generate b a o)) b with ⟨r1, w1⟩
  rw [h1] at e1 f1 o1
  simp only [log_fs, log_trace, calls_append, written_append, calls, written,
    List.append_nil] at e1 f1 o1
  rw [← e1]
  cases r1 with
  | error e => simp [f1, o1]
  | ok bi =>
    have e2 := loadImage_fst_congr c w1 w a (by rw [f1])
    have f2 := loadImage_fs c w1 a
    have o2 := loadImage_obs c w1 a
    have u2 := loadImage_umask c w1 a
    rw [show w1.umask = w.umask from by
      have := loadImage_umask c (w.log (.generate b a o)) b
      rw [h1] at this
      exact this] at u2
    rcases h2 : loadImage c w1 a with ⟨r2, w2⟩
    rw [h2] at e2 f2 o2 u2
    simp only at e2 f2 o2 u2
    rw [← e2]
    simp only [h2]
    cases r2 with
    | error e => simp [f1, f2, o1, o2]
    | ok ai =>
      simp only
      by_cases hbd : bi.bounds = (c.diff bi ai).bounds
      · simp [hbd, f1, f2, o1, o2]
      · simp only [hbd, if_false]
        cases hopen : canOpen w.fs (pathJoin o (pathBase a)) with
        | true =>
          have hs := saveImage_of_canOpen c w2 (c.diff bi ai) (pathJoin o (pathBase a))
            (by rw [f2, f1]; exact hopen)
          rcases h3 : saveImage c w2 (c.diff bi ai) (pathJoin o (pathBase a)) with ⟨r3, w3⟩
          rw [h3] at hs
          obtain ⟨hs1, hs2, hs3, hs4⟩ := hs
          simp only at hs1 hs2 hs3 hs4
          subst hs1
          simp [h3, hs2, hs3, hs4, f1, f2, o1, o2, u2]
        | false =>
          have hs := saveImage_of_not_canOpen c w2 (c.diff bi ai) (pathJoin o (pathBase a))
            (by rw [f2, f1]; exact hopen)
          rcases h3 : saveImage c w2 (c.diff bi ai) (pathJoin o (pathBase a)) with ⟨r3, w3⟩
          rw [h3] at hs
          obtain ⟨⟨e, hs1⟩, hs2, hs3, hs4⟩ := hs
          simp only at hs1 hs2 hs3 hs4
          subst hs1
          simp [h3, hs2, hs3, hs4, f1, f2, o1, o2, hbd]

theorem processListing_calls (c : Collab) (b a o : Path) (names : List String) (w : World) :
    calls (processListing c b a o names w).trace =
      calls w.trace ++ resolvedPairs b a names := by
  induction names generalizing w with
  | nil => simp [processListing, resolvedPairs]
  | cons name rest ih =>
    unfold processListing
    by_cases hext : filepathExt name = ".png"
    · simp only [hext, ne_eq, not_true_eq_false, if_false]
      rw [ih, (generateDiffImage_spec c w _ _ o).1]
      simp [resolvedPairs, hext]
    · simp only [hext, ne_eq, not_false_eq_true, if_true]
      rw [ih]
      simp [resolvedPairs, hext]

theorem exportAndExit_obs (env : Env) (w : World) (o : Path) :
    (exportAndExit env w o).1 = (if env.envman o = true then 0 else 1) ∧
    (exportAndExit env w o).2.fs = w.fs ∧
    calls (exportAndExit env w o).2.trace = calls w.trace ∧
    written (exportAndExit env w o).2.trace = written w.trace := by
  unfold exportAndExit
  split <;> simp [calls_append, written_append, calls, written]

theorem main_of_listing (c : Collab) (env : Env) (w : World) (conf : Config) (m : FileMode)
    (names : List String) (hparse : env.parse = .ok conf)
    (hv : (validateFileModes (prepareOutputDir w (outputDirOf env))
      conf.BeforeImages conf.AfterImages).1 = .ok m)
    (hdir : IsDir m = true)
    (hlist : readDirNode ((prepareOutputDir w (outputDirOf env)).fs conf.AfterImages)
      = .ok names) :
    main c env w = exportAndExit env
      (processListing c conf.BeforeImages conf.AfterImages (outputDirOf env) names
        ((validateFileModes (prepareOutputDir w (outputDirOf env))
          conf.BeforeImages conf.AfterImages).2.log (.readDir conf.AfterImages)))
      (outputDirOf env) := by
  unfold main
  rw [hparse]
  simp only
  have hfs := validateFileModes_fs (prepareOutputDir w (outputDirOf env))
    conf.BeforeImages conf.AfterImages
  rcases hvv : validateFileModes (prepareOutputDir w (outputDirOf env))
    conf.BeforeImages conf.AfterImages with ⟨r, w2⟩
  rw [hvv] at hv hfs
  simp only at hv hfs
  subst hv
  simp only [hdir, if_true, ioutilReadDir, hfs, hlist]

theorem main_of_listing_error (c : Collab) (env : Env) (w : World) (conf : Config)
    (m : FileMode) (e : Err) (hparse : env.parse = .ok conf)
    (hv : (validateFileModes (prepareOutputDir w (outputDirOf env))
      conf.BeforeImages conf.AfterImages).1 = .ok m)
    (hdir : IsDir m = true)
    (hlist : readDirNode ((prepareOutputDir w (outputDirOf env)).fs conf.AfterImages)
      = .error e) :
    main c env w = (1, (validateFileModes (prepareOutputDir w (outputDirOf env))
          conf.BeforeImages conf.AfterImages).2.log (.readDir conf.AfterImages)) := by
  unfold main
  rw [hparse]
  simp only
  have hfs := validateFileModes_fs (prepareOutputDir w (outputDirOf env))
    conf.BeforeImages conf.AfterImages
  rcases hvv : validateFileModes (prepareOutputDir w (outputDirOf env))
    conf.BeforeImages conf.AfterImages with ⟨r, w2⟩
  rw [hvv] at hv hfs
  simp only at hv hfs
  subst hv
  simp only [hdir, if_true, ioutilReadDir, hfs, hlist]

theorem main_of_single (c : Collab) (env : Env) (w : World) (conf : Config) (m : FileMode)
    (hparse : env.parse = .ok conf)
    (hv : (validateFileModes (prepareOutputDir w (outputDirOf env))
      conf.BeforeImages conf.AfterImages).1 = .ok m)
    (hdir : IsDir m = false) :
    main c env w = exportAndExit env
      (generateDiffImage c (validateFileModes (prepareOutputDir w (outputDirOf env))
          conf.BeforeImages conf.AfterImages).2
        conf.BeforeImages conf.AfterImages (outputDirOf env)).2
      (outputDirOf env) := by
  unfold main
  rw [hparse]
  simp only
  rcases hvv : validateFileModes (prepareOutputDir w (outputDirOf env))
    conf.BeforeImages conf.AfterImages with ⟨r, w2⟩
  rw [hvv] at hv
  simp only at hv
  subst hv
  simp [hdir]

/-! ## Invariants of the pair loop -/

theorem savedNode_isFile (um : Nat) (bytes : List Nat) (n : Node) :
    (savedNode um bytes n).isFile = true := by
  cases n <;> rfl

theorem canOpen_not_isDir {fs : Path → Node} {p : Path} (h : canOpen fs p = true) :
    (fs p).isDir = false := by
  unfold canOpen at h
  cases hn : fs p <;> simp_all [Node.isDir]

theorem isFile_not_isDir {n : Node} (h : n.isFile = true) : n.isDir = false := by
  cases n <;> simp_all [Node.isDir, Node.isFile]

theorem isFile_ne_absent {n : Node} (h : n.isFile = true) : n ≠ .absent := by
  cases n <;> simp_all [Node.isFile]

theorem canOpen_update (fs fs2 : Path → Node) (dest : Path) (um : Nat) (bytes : List Nat)
    (h : canOpen fs dest = true)
    (hfs : ∀ q, fs2 q = if q = dest then savedNode um bytes (fs dest) else fs q) (q : Path) :
    canOpen fs2 q = canOpen fs q := by
  have hnd := canOpen_not_isDir h
  have hsd : (savedNode um bytes (fs dest)).isDir = false :=
    isFile_not_isDir (savedNode_isFile _ _ _)
  have hparent : (fs2 (pathDir q)).isDir = (fs (pathDir q)).isDir := by
    rw [hfs]
    split
    · rename_i hq; rw [hq, hsd, hnd]
    · rfl
  by_cases hq : q = dest
  · subst hq
    rw [h]
    unfold canOpen
    rw [hfs q, if_pos rfl]
    cases hn : fs q <;> simp [savedNode]
  · unfold canOpen
    rw [hfs q, if_neg hq, hparent]

theorem Grows.refl (g : Path → Node) : Grows g g := fun _ => Or.inl rfl

theorem Grows.trans {f g h : Path → Node} (h1 : Grows f g) (h2 : Grows g h) : Grows f h := by
  intro p
  rcases h2 p with e2 | ⟨d2, f2⟩
  · rw [e2]; exact h1 p
  · rcases h1 p with e1 | ⟨d1, _⟩
    · rw [e1] at d2; exact Or.inr ⟨d2, f2⟩
    · exact Or.inr ⟨d1, f2⟩

theorem Grows.absent {g h : Path → Node} (hg : Grows g h) {p : Path} (hp : h p = .absent) :
    g p = .absent := by
  rcases hg p with e | ⟨_, f⟩
  · rw [← e]; exact hp
  · rw [hp] at f; cases f

theorem Grows.present {g h : Path → Node} (hg : Grows g h) {p : Path} (hp : g p ≠ .absent) :
    h p ≠ .absent := fun hh => hp (hg.absent hh)

theorem Grows.isDir {g h : Path → Node} (hg : Grows g h) (p : Path) :
    (h p).isDir = (g p).isDir := by
  rcases hg p with e | ⟨d, f⟩
  · rw [e]
  · rw [d, isFile_not_isDir f]

theorem Grows.dir_eq {g h : Path → Node} (hg : Grows g h) {p : Path}
    (hp : (g p).isDir = true) : h p = g p := by
  rcases hg p with e | ⟨d, _⟩
  · exact e
  · rw [hp] at d; cases d

theorem generateDiffImage_cases (c : Collab) (w : World) (b a o : Path) :
    ((generateDiffImage c w b a o).2.fs = w.fs ∧
      written (generateDiffImage c w b a o).2.trace = written w.trace ∧
      (keptArtifact c w b a = none ∨ canOpen w.fs (pathJoin o (pathBase a)) = false)) ∨
    (∃ d, keptArtifact c w b a = some d ∧ canOpen w.fs (pathJoin o (pathBase a)) = true ∧
      (∀ q, (generateDiffImage c w b a o).2.fs q =
        if q = pathJoin o (pathBase a) then
          savedNode w.umask (c.encode d).1 (w.fs (pathJoin o (pathBase a)))
        else w.fs q) ∧
      written (generateDiffImage c w b a o).2.trace =
        written w.trace ++ [pathJoin o (pathBase a)]) := by
  obtain ⟨_, hk1, hk2, hk3, _⟩ := generateDiffImage_spec c w b a o
  cases hk : keptArtifact c w b a with
  | none => exact Or.inl ⟨(hk3 hk).1, (hk3 hk).2, Or.inl rfl⟩
  | some d =>
    cases ho : canOpen w.fs (pathJoin o (pathBase a)) with
    | false => exact Or.inl ⟨(hk2 d hk ho).2.1, (hk2 d hk ho).2.2, Or.inr rfl⟩
    | true => exact Or.inr ⟨d, rfl, rfl, (hk1 d hk ho).2.1, (hk1 d hk ho).2.2⟩

theorem generateDiffImage_grows (c : Collab) (w : World) (b a o : Path) :
    Grows w.fs (generateDiffImage c w b a o).2.fs := by
  rcases generateDiffImage_cases c w b a o with ⟨h, _, _⟩ | ⟨d, _, ho, hfs, _⟩
  · rw [h]; exact Grows.refl _
  · intro p
    rw [hfs p]
    by_cases hp : p = pathJoin o (pathBase a)
    · subst hp
      rw [if_pos rfl]
      exact Or.inr ⟨canOpen_not_isDir ho, savedNode_isFile _ _ _⟩
    · rw [if_neg hp]; exact Or.inl rfl

theorem generateDiffImage_canOpen (c : Collab) (w : World) (b a o : Path) (q : Path) :
    canOpen (generateDiffImage c w b a o).2.fs q = canOpen w.fs q := by
  rcases generateDiffImage_cases c w b a o with ⟨h, _, _⟩ | ⟨d, _, ho, hfs, _⟩
  · rw [h]
  · exact canOpen_update _ _ _ _ _ ho hfs q

theorem processListing_grows (c : Collab) (b a o : Path) (names : List String) (w : World) :
    Grows w.fs (processListing c b a o names w).fs := by
  induction names generalizing w with
  | nil => exact Grows.refl _
  | cons name rest ih =>
    unfold processListing
    split
    · exact ih w
    · exact (generateDiffImage_grows c w _ _ o).trans (ih _)

theorem processListing_canOpen (c : Collab) (b a o : Path) (names : List String) (w : World)
    (q : Path) : canOpen (processListing c b a o names w).fs q = canOpen w.fs q := by
  induction names generalizing w with
  | nil => rfl
  | cons name rest ih =>
    unfold processListing
    split
    · exact ih w
    · rw [ih, generateDiffImage_canOpen]

theorem keptArtifact_congr (c : Collab) (w w2 : World) (b a : Path)
    (hb : w.fs b = w2.fs b) (ha : w.fs a = w2.fs a) :
    keptArtifact c w b a = keptArtifact c w2 b a := by
  unfold keptArtifact
  rw [loadImage_fst_congr c w w2 b hb, loadImage_fst_congr c w w2 a ha]

theorem saveImage_umask (c : Collab) (w : World) (img : Image) (p : Path) :
    (saveImage c w img p).2.umask = w.umask := by
  unfold saveImage osOpenFile pngEncode
  cases h : w.fs p <;> simp
  cases (w.fs (pathDir p)).isDir <;> simp

theorem generateDiffImage_umask (c : Collab) (w : World) (b a o : Path) :
    (generateDiffImage c w b a o).2.umask = w.umask := by
  unfold generateDiffImage
  have u1 := loadImage_umask c (w.log (.generate b a o)) b
  rcases h1 : loadImage c (w.log (.generate b a o)) b with ⟨r1, w1⟩
  rw [h1] at u1
  simp only [log_umask] at u1
  cases r1 with
  | error e => exact u1
  | ok bi =>
    have u2 := loadImage_umask c w1 a
    rcases h2 : loadImage c w1 a with ⟨r2, w2⟩
    rw [h2] at u2
    simp only [h2]
    cases r2 with
    | error e => exact u2.trans u1
    | ok ai =>
      simp only
      split
      · exact u2.trans u1
      · have u3 := saveImage_umask c w2 (c.diff bi ai) (pathJoin o (pathBase a))
        rcases h3 : saveImage c w2 (c.diff bi ai) (pathJoin o (pathBase a)) with ⟨r3, w3⟩
        rw [h3] at u3
        cases r3 <;> exact (u3.trans u2).trans u1

theorem validateFileModes_umask (w : World) (b a : Path) :
    (validateFileModes w b a).2.umask = w.umask := by
  unfold validateFileModes osStat
  cases statNode (w.fs b) <;> simp
  cases statNode (w.fs a) <;> simp
  split <;> simp

theorem prepareOutputDir_umask (w : World) (o : Path) :
    (prepareOutputDir w o).umask = w.umask := by
  cases h : w.fs o <;>
    simp [prepareOutputDir, osStat, osMkdir, statNode, isNotExist, h]
  split <;> simp

theorem generateDiffImage_sim (c : Collab) (w w2 : World) (b a o : Path)
    (hu : w.umask = w2.umask)
    (hb : w.fs b = w2.fs b) (ha : w.fs a = w2.fs a)
    (ho : canOpen w.fs (pathJoin o (pathBase a)) = canOpen w2.fs (pathJoin o (pathBase a))) :
    (∃ delta, written (generateDiffImage c w b a o).2.trace = written w.trace ++ delta ∧
      written (generateDiffImage c w2 b a o).2.trace = written w2.trace ++ delta) ∧
    (∀ p, w.fs p = w2.fs p →
      (generateDiffImage c w b a o).2.fs p = (generateDiffImage c w2 b a o).2.fs p) ∧
    ((generateDiffImage c w2 b a o).2.fs = w2.fs ∨
      ((generateDiffImage c w b a o).2.fs (pathJoin o (pathBase a)) ≠ .absent ∧
        ∀ q, q ≠ pathJoin o (pathBase a) → (generateDiffImage c w2 b a o).2.fs q = w2.fs q)) := by
  have hk := keptArtifact_congr c w w2 b a hb ha
  rcases generateDiffImage_cases c w b a o with ⟨f1, t1, n1⟩ | ⟨d1, k1, o1, f1, t1⟩ <;>
    rcases generateDiffImage_cases c w2 b a o with ⟨f2, t2, n2⟩ | ⟨d2, k2, o2, f2, t2⟩
  · refine ⟨⟨[], by simp [t1], by simp [t2]⟩, ?_, Or.inl f2⟩
    intro p hp
    rw [f1, f2]; exact hp
  · exfalso
    rw [← hk] at k2
    rw [← ho] at o2
    rcases n1 with n1 | n1
    · rw [n1] at k2; cases k2
    · rw [n1] at o2; cases o2
  · exfalso
    rw [hk] at k1
    rw [ho] at o1
    rcases n2 with n2 | n2
    · rw [n2] at k1; cases k1
    · rw [n2] at o1; cases o1
  · have hd : d1 = d2 := by
      rw [hk, k2] at k1
      exact (Option.some.inj k1).symm
    subst hd
    refine ⟨⟨[pathJoin o (pathBase a)], t1, t2⟩, ?_, Or.inr ⟨?_, ?_⟩⟩
    · intro p hp
      rw [f1 p, f2 p]
      by_cases hq : p = pathJoin o (pathBase a)
      · rw [if_pos hq, if_pos hq, ← hq, hp, hu]
      · rw [if_neg hq, if_neg hq]; exact hp
    · rw [f1, if_pos rfl]
      exact isFile_ne_absent (savedNode_isFile _ _ _)
    · intro q hq
      rw [f2 q, if_neg hq]

theorem processListing_sim (c : Collab) (b a o : Path) (S : List Path) (names : List String) :
    ∀ w w2 : World, w.umask = w2.umask →
      (∀ name ∈ names, filepathExt name = ".png" → pathJoin b name ∈ S ∧ pathJoin a name ∈ S) →
      (∀ p ∈ S, w.fs p = w2.fs p) →
      (∀ q, canOpen w.fs q = canOpen w2.fs q) →
      (∀ p, (processListing c b a o names w).fs p ≠ .absent → w2.fs p ≠ .absent) →
      (∃ delta, written (processListing c b a o names w).trace = written w.trace ++ delta ∧
        written (processListing c b a o names w2).trace = written w2.trace ++ delta) ∧
      (∀ p, (processListing c b a o names w2).fs p = .absent ↔ w2.fs p = .absent) := by
  induction names with
  | nil =>
    intro w w2 _ _ _ _ _
    exact ⟨⟨[], by simp [processListing], by simp [processListing]⟩, fun p => Iff.rfl⟩
  | cons name rest ih =>
    intro w w2 hu hS hagree hopen hK
    have hSrest : ∀ n ∈ rest, filepathExt n = ".png" →
        pathJoin b n ∈ S ∧ pathJoin a n ∈ S :=
      fun n hn => hS n (List.mem_cons_of_mem _ hn)
    by_cases hext : filepathExt name = ".png"
    · have hmem := hS name (List.mem_cons_self _ _) hext
      have hstep : ∀ v : World, processListing c b a o (name :: rest) v =
          processListing c b a o rest
            (generateDiffImage c v (pathJoin b name) (pathJoin a name) o).2 := by
        intro v
        conv_lhs => unfold processListing
        simp [hext]
      obtain ⟨⟨d1, hd1, hd2⟩, hfs, hthird⟩ :=
        generateDiffImage_sim c w w2 (pathJoin b name) (pathJoin a name) o hu
          (hagree _ hmem.1) (hagree _ hmem.2) (hopen _)
      rw [hstep w] at hK
      have hK2 : ∀ p, (processListing c b a o rest
          (generateDiffImage c w (pathJoin b name) (pathJoin a name) o).2).fs p ≠ .absent →
          (generateDiffImage c w2 (pathJoin b name) (pathJoin a name) o).2.fs p ≠ .absent :=
        fun p hp => (generateDiffImage_grows c w2 _ _ o).present (hK p hp)
      obtain ⟨⟨d2, he1, he2⟩, habs⟩ := ih _ _
        (by rw [generateDiffImage_umask, generateDiffImage_umask]; exact hu) hSrest
        (fun p hp => hfs p (hagree p hp))
        (fun q => by rw [generateDiffImage_canOpen, generateDiffImage_canOpen]; exact hopen q)
        hK2
      rw [hstep w, hstep w2]
      refine ⟨⟨d1 ++ d2, ?_, ?_⟩, ?_⟩
      · rw [he1, hd1, List.append_assoc]
      · rw [he2, hd2, List.append_assoc]
      · intro p
        rw [habs p]
        constructor
        · exact fun hp => (generateDiffImage_grows c w2 _ _ o).absent hp
        · intro hp
          rcases hthird with h3 | ⟨h3, h4⟩
          · rw [h3]; exact hp
          · by_cases hq : p = pathJoin o (pathBase (pathJoin a name))
            · exfalso
              subst hq
              exact hK _ ((processListing_grows c b a o rest _).present h3) hp
            · rw [h4 p hq]; exact hp
    · have hstep : ∀ v : World, processListing c b a o (name :: rest) v =
          processListing c b a o rest v := by
        intro v
        conv_lhs => unfold processListing
        simp [hext]
      rw [hstep w] at hK
      rw [hstep w, hstep w2]
      exact ih w w2 hu hSrest hagree hopen hK

theorem prepareOutputDir_cases (w : World) (o : Path) :
    ((prepareOutputDir w o).fs = w.fs ∧
      (w.fs o ≠ .absent ∨ (w.fs (pathDir o)).isDir = false)) ∨
    (w.fs o = .absent ∧
      ∀ q, (prepareOutputDir w o).fs q = if q = o then .dir (applyUmask ModePerm w.umask) (some []) else w.fs q) := by
  cases h : w.fs o
  · cases hd : (w.fs (pathDir o)).isDir
    · left
      simp [prepareOutputDir, osStat, osMkdir, statNode, isNotExist, h, hd]
    · right
      simp [prepareOutputDir, osStat, osMkdir, statNode, isNotExist, h, hd]
  all_goals
    left
    simp [prepareOutputDir, osStat, osMkdir, statNode, isNotExist, h]

theorem prepareOutputDir_noop (w : World) (o : Path)
    (h : w.fs o ≠ .absent ∨ (w.fs (pathDir o)).isDir = false) :
    (prepareOutputDir w o).fs = w.fs := by
  rcases prepareOutputDir_cases w o with ⟨h1, _⟩ | ⟨h1, h2⟩
  · exact h1
  · rcases h with h | h
    · exact absurd h1 h
    · funext q
      rw [h2 q]
      split
      · exfalso
        simp [prepareOutputDir, osStat, osMkdir, statNode, isNotExist, h1, h] at h2
        have := h2 o
        simp [h1] at this
      · rfl

theorem validateFileModes_fst (w : World) (b a : Path) :
    (validateFileModes w b a).1 =
      (match statNode (w.fs b) with
        | .error e => .error e
        | .ok beforeMode =>
          match statNode (w.fs a) with
          | .error e => .error e
          | .ok afterMode =>
            if beforeMode ≠ afterMode then .error .modeMismatch else .ok afterMode) := by
  unfold validateFileModes osStat
  cases statNode (w.fs b) <;> simp
  cases statNode (w.fs a) <;> simp
  split <;> simp

theorem validateFileModes_fst_congr (w w2 : World) (b a : Path)
    (hb : w.fs b = w2.fs b) (ha : w.fs a = w2.fs a) :
    (validateFileModes w b a).1 = (validateFileModes w2 b a).1 := by
  rw [validateFileModes_fst, validateFileModes_fst, hb, ha]

theorem mem_pairPaths {b a : Path} {l : List (Path × Path)} (h : (b, a) ∈ l) :
    b ∈ pairPaths l ∧ a ∈ pairPaths l := by
  induction l with
  | nil => cases h
  | cons x t ih =>
    obtain ⟨x1, x2⟩ := x
    rcases List.mem_cons.1 h with e | e
    · cases e
      simp [pairPaths]
    · have := ih e
      simp [pairPaths, this.1, this.2]

theorem main_listing_calls (c : Collab) (env : Env) (w : World) (conf : Config)
    (m : FileMode) (names : List String)
    (hparse : env.parse = .ok conf)
    (hv : (validateFileModes (prepareOutputDir w (outputDirOf env))
      conf.BeforeImages conf.AfterImages).1 = .ok m)
    (hdir : IsDir m = true)
    (hlist : readDirNode ((prepareOutputDir w (outputDirOf env)).fs conf.AfterImages)
      = .ok names) :
    calls (main c env w).2.trace =
      calls w.trace ++ resolvedPairs conf.BeforeImages conf.AfterImages names := by
  rw [main_of_listing c env w conf m names hparse hv hdir hlist,
    (exportAndExit_obs _ _ _).2.2.1, processListing_calls]
  simp only [log_trace, calls_append, calls, List.append_nil]
  rw [(validateFileModes_trace _ _ _).1, (prepareOutputDir_trace _ _).1]

theorem main_single_calls (c : Collab) (env : Env) (w : World) (conf : Config)
    (m : FileMode) (hparse : env.parse = .ok conf)
    (hv : (validateFileModes (prepareOutputDir w (outputDirOf env))
      conf.BeforeImages conf.AfterImages).1 = .ok m)
    (hdir : IsDir m = false) :
    calls (main c env w).2.trace =
      calls w.trace ++ [(conf.BeforeImages, conf.AfterImages)] := by
  rw [main_of_single c env w conf m hparse hv hdir,
    (exportAndExit_obs _ _ _).2.2.1, (generateDiffImage_spec _ _ _ _ _).1,
    (validateFileModes_trace _ _ _).1, (prepareOutputDir_trace _ _).1]

theorem main_run_facts (c : Collab) (env : Env) (w : World) (conf : Config)
    (hparse : env.parse = .ok conf) :
    Grows (prepareOutputDir w (outputDirOf env)).fs (main c env w).2.fs ∧
    (∀ q, canOpen (main c env w).2.fs q =
      canOpen (prepareOutputDir w (outputDirOf env)).fs q) := by
  have hfs := validateFileModes_fs (prepareOutputDir w (outputDirOf env))
    conf.BeforeImages conf.AfterImages
  cases hv : (validateFileModes (prepareOutputDir w (outputDirOf env))
      conf.BeforeImages conf.AfterImages).1 with
  | error e =>
    rw [main_of_validate_error c env w conf hparse e hv]
    rw [hfs]
    exact ⟨Grows.refl _, fun _ => rfl⟩
  | ok m =>
    cases hdir : IsDir m with
    | true =>
      cases hlist : readDirNode
          ((prepareOutputDir w (outputDirOf env)).fs conf.AfterImages) with
      | error e =>
        rw [main_of_listing_error c env w conf m e hparse hv hdir hlist]
        rw [log_fs, hfs]
        exact ⟨Grows.refl _, fun _ => rfl⟩
      | ok names =>
        rw [main_of_listing c env w conf m names hparse hv hdir hlist,
          (exportAndExit_obs _ _ _).2.1]
        constructor
        · have := processListing_grows c conf.BeforeImages conf.AfterImages (outputDirOf env)
            names ((validateFileModes (prepareOutputDir w (outputDirOf env))
              conf.BeforeImages conf.AfterImages).2.log (.readDir conf.AfterImages))
          simpa only [log_fs, hfs] using this
        · intro q
          rw [processListing_canOpen]
          simp only [log_fs, hfs]
    | false =>
      rw [main_of_single c env w conf m hparse hv hdir, (exportAndExit_obs _ _ _).2.1]
      constructor
      · have := generateDiffImage_grows c (validateFileModes
            (prepareOutputDir w (outputDirOf env)) conf.BeforeImages conf.AfterImages).2
            conf.BeforeImages conf.AfterImages (outputDirOf env)
        simpa only [hfs] using this
      · intro q
        rw [generateDiffImage_canOpen]
        simp only [hfs]

theorem second_prepare_noop (c : Collab) (env : Env) (fs : Path → Node) (u : Nat)
    (conf : Config) (hparse : env.parse = .ok conf) (t : List Event) :
    (prepareOutputDir ⟨(main c env ⟨fs, [], u⟩).2.fs, t, u⟩ (outputDirOf env)).fs =
      (main c env ⟨fs, [], u⟩).2.fs := by
  obtain ⟨hG, _⟩ := main_run_facts c env ⟨fs, [], u⟩ conf hparse
  apply prepareOutputDir_noop
  rcases prepareOutputDir_cases ⟨fs, [], u⟩ (outputDirOf env) with ⟨h1, h2⟩ | ⟨h1, h2⟩
  · rw [h1] at hG
    rcases h2 with h2 | h2
    · exact Or.inl (hG.present h2)
    · right
      show ((main c env ⟨fs, [], u⟩).2.fs (pathDir (outputDirOf env))).isDir = false
      rw [hG.isDir]
      exact h2
  · left
    show (main c env ⟨fs, [], u⟩).2.fs (outputDirOf env) ≠ .absent
    have hd : ((prepareOutputDir ⟨fs, [], u⟩ (outputDirOf env)).fs (outputDirOf env)).isDir
        = true := by
      rw [h2, if_pos rfl]; rfl
    rw [hG.dir_eq hd, h2, if_pos rfl]
    exact fun h => by cases h

theorem first_prepare_agrees (c : Collab) (env : Env) (fs : Path → Node) (u : Nat)
    (conf : Config) (hparse : env.parse = .ok conf) (p : Path)
    (hp : (main c env ⟨fs, [], u⟩).2.fs p = fs p) :
    (prepareOutputDir ⟨fs, [], u⟩ (outputDirOf env)).fs p = (main c env ⟨fs, [], u⟩).2.fs p := by
  obtain ⟨hG, _⟩ := main_run_facts c env ⟨fs, [], u⟩ conf hparse
  rcases prepareOutputDir_cases ⟨fs, [], u⟩ (outputDirOf env) with ⟨h1, _⟩ | ⟨_, h2⟩
  · rw [h1, hp]
  · by_cases hq : p = outputDirOf env
    · subst hq
      have hd : ((prepareOutputDir ⟨fs, [], u⟩ (outputDirOf env)).fs (outputDirOf env)).isDir
          = true := by
        rw [h2, if_pos rfl]; rfl
      exact (hG.dir_eq hd).symm
    · rw [h2, if_neg hq, hp]

theorem saveImage_fst (c : Collab) (w : World) (img : Image) (p : Path) :
    (saveImage c w img p).1 =
      match (osOpenFile w p).1 with
      | .error e => some e
      | .ok _ => none := by
  unfold saveImage
  rcases osOpenFile w p with ⟨r, w1⟩
  cases r <;> rfl

theorem osOpenFile_fst_congr (w w2 : World) (p : Path) (h : w.fs = w2.fs) :
    (osOpenFile w p).1 = (osOpenFile w2 p).1 := by
  unfold osOpenFile
  rw [h]
  cases w2.fs p <;> simp
  split <;> rfl

theorem generateDiffImage_kept_result (c : Collab) (w : World) (b a o : Path) (d : Image)
    (hk : keptArtifact c w b a = some d) :
    (generateDiffImage c w b a o).1 =
      match (osOpenFile w (pathJoin o (pathBase a))).1 with
      | .error e => some e
      | .ok _ => none := by
  unfold keptArtifact at hk
  unfold generateDiffImage
  have e1 := loadImage_fst_congr c (w.log (.generate b a o)) w b rfl
  have f1 := loadImage_fs c (w.log (.generate b a o)) b
  rcases h1 : loadImage c (w.log (.generate b a o)) b with ⟨r1, w1⟩
  rw [h1] at e1 f1
  simp only [log_fs] at e1 f1
  rw [← e1] at hk
  cases r1 with
  | error e => simp at hk
  | ok bi =>
    have e2 := loadImage_fst_congr c w1 w a (by rw [f1])
    have f2 := loadImage_fs c w1 a
    rcases h2 : loadImage c w1 a with ⟨r2, w2⟩
    rw [h2] at e2 f2
    simp only at e2 f2
    rw [← e2] at hk
    simp only [h2]
    cases r2 with
    | error e => simp at hk
    | ok ai =>
      simp only at hk ⊢
      by_cases hbd : bi.bounds = (c.diff bi ai).bounds
      · simp [hbd] at hk
      · simp only [hbd, if_false]
        have hs := saveImage_fst c w2 (c.diff bi ai) (pathJoin o (pathBase a))
        rw [osOpenFile_fst_congr w2 w _ (f2.trans f1)] at hs
        rcases h3 : saveImage c w2 (c.diff bi ai) (pathJoin o (pathBase a)) with ⟨r3, w3⟩
        rw [h3] at hs
        simp only at hs
        cases r3 <;> exact hs

theorem osOpenFile_fails_iff (w : World) (p : Path) :
    (osOpenFile w p).1 ≠ .ok () ↔ canOpen w.fs p = false := by
  rw [Ne, osOpenFile_ok_iff]
  cases canOpen w.fs p <;> simp

theorem writes_iff_of_loads (c : Collab) (w : World)
    (beforeFn afterFn outputDir : Path) (beforeImage afterImage : Image)
    (hb : (loadImage c w beforeFn).1 = .ok beforeImage)
    (ha : (loadImage c w afterFn).1 = .ok afterImage) :
    (written (generateDiffImage c w beforeFn afterFn outputDir).2.trace ≠ written w.trace ↔
      beforeImage.bounds ≠ (c.diff beforeImage afterImage).bounds ∧
        canOpen w.fs (pathJoin outputDir (pathBase afterFn)) = true) ∧
    (beforeImage.bounds = (c.diff beforeImage afterImage).bounds →
      (generateDiffImage c w beforeFn afterFn outputDir).1 = none ∧
      (generateDiffImage c w beforeFn afterFn outputDir).2.fs = w.fs) ∧
    (beforeImage.bounds ≠ (c.diff beforeImage afterImage).bounds →
      canOpen w.fs (pathJoin outputDir (pathBase afterFn)) = false →
      (∃ e, (generateDiffImage c w beforeFn afterFn outputDir).1 = some e) ∧
      (generateDiffImage c w beforeFn afterFn outputDir).2.fs = w.fs) ∧
    (beforeImage.bounds ≠ (c.diff beforeImage afterImage).bounds →
      canOpen w.fs (pathJoin outputDir (pathBase afterFn)) = true →
      (generateDiffImage c w beforeFn afterFn outputDir).1 = none ∧
      written (generateDiffImage c w beforeFn afterFn outputDir).2.trace =
        written w.trace ++ [pathJoin outputDir (pathBase afterFn)] ∧
      ∀ q, q ≠ pathJoin outputDir (pathBase afterFn) →
        (generateDiffImage c w beforeFn afterFn outputDir).2.fs q = w.fs q) := by
  obtain ⟨_, hk1, hk2, hk3, hk4, _, _⟩ := generateDiffImage_spec c w beforeFn afterFn outputDir
  have hkept : keptArtifact c w beforeFn afterFn =
      if beforeImage.bounds = (c.diff beforeImage afterImage).bounds then none
      else some (c.diff beforeImage afterImage) := by
    simp [keptArtifact, hb, ha]
  by_cases hbd : beforeImage.bounds = (c.diff beforeImage afterImage).bounds
  · rw [if_pos hbd] at hkept
    have h3 := hk3 hkept
    refine ⟨?_, fun _ => ⟨hk4 _ _ hb ha hbd, h3.1⟩, fun h => absurd hbd h, fun h => absurd hbd h⟩
    simp [h3.2, hbd]
  · rw [if_neg hbd] at hkept
    cases hopen : canOpen w.fs (pathJoin outputDir (pathBase afterFn)) with
    | true =>
      obtain ⟨g1, g2, g3⟩ := hk1 _ hkept hopen
      refine ⟨?_, fun h => absurd h hbd, fun _ h => (by cases h), fun _ _ => ⟨g1, g3, ?_⟩⟩
      · simp [g3, hbd]
      · intro q hq
        rw [g2 q, if_neg hq]
    | false =>
      obtain ⟨g1, g2, g3⟩ := hk2 _ hkept hopen
      refine ⟨?_, fun h => absurd h hbd, fun _ _ => ⟨g1, g2⟩, fun _ h => (by cases h)⟩
      simp [g3]

/-! ## C2: mixed or unstat-able roots abort the run -/

/-- C2, as amended. When, at the time the roots are validated, one root is a directory and
the other a regular file (in either order), or one of them cannot be
stat-ed, `validateFileModes` returns an error (in every world with that file
system), and the run of `main` exits with code 1 without any
`generateDiffImage` call. The file system the roots are validated in is the
initial one except possibly at the output directory, which `main` may have
created just before. -/
theorem mixed_or_unstatable_roots_abort (c : Collab) (env : Env) (w : World) (conf : Config)
    (hparse : env.parse = .ok conf)
    (hroots :
      (((prepareOutputDir w (outputDirOf env)).fs conf.BeforeImages).isDir = true ∧
        ((prepareOutputDir w (outputDirOf env)).fs conf.AfterImages).isFile = true) ∨
      (((prepareOutputDir w (outputDirOf env)).fs conf.BeforeImages).isFile = true ∧
        ((prepareOutputDir w (outputDirOf env)).fs conf.AfterImages).isDir = true) ∨
      (∃ e, statNode ((prepareOutputDir w (outputDirOf env)).fs conf.BeforeImages) = .error e) ∨
      (∃ e, statNode ((prepareOutputDir w (outputDirOf env)).fs conf.AfterImages) = .error e)) :
    (∀ w0 : World, w0.fs = (prepareOutputDir w (outputDirOf env)).fs →
      ∃ e, (validateFileModes w0 conf.BeforeImages conf.AfterImages).1 = .error e) ∧
    (main c env w).1 = 1 ∧
    calls (main c env w).2.trace = calls w.trace ∧
    (∀ p, p ≠ outputDirOf env → (prepareOutputDir w (outputDirOf env)).fs p = w.fs p) := by
  refine ⟨?_, ?_⟩
  · intro w0 h0
    apply validateFileModes_error_of_roots
    rw [h0]
    exact hroots
  · obtain ⟨e, he⟩ := validateFileModes_error_of_roots _ _ _ hroots
    rw [main_of_validate_error c env w conf hparse e he]
    refine ⟨rfl, ?_, ?_⟩
    · rw [(validateFileModes_trace _ _ _).1, (prepareOutputDir_trace _ _).1]
    · intro p hp
      rcases prepareOutputDir_cases w (outputDirOf env) with ⟨h1, _⟩ | ⟨_, h2⟩
      · rw [h1]
      · rw [h2 p, if_neg hp]

/-- Witness for C2 on `sampleFs`: a directory against a regular file. -/
theorem mixed_or_unstatable_roots_abort_witness :
    ((prepareOutputDir ⟨sampleFs, [], 18⟩ (outputDirOf mixedEnv)).fs "/src/before").isDir = true ∧
    ((prepareOutputDir ⟨sampleFs, [], 18⟩ (outputDirOf mixedEnv)).fs "/src/after/shot.png").isFile
      = true ∧
    (main stackCollab mixedEnv ⟨sampleFs, [], 18⟩).1 = 1 ∧
    calls (main stackCollab mixedEnv ⟨sampleFs, [], 18⟩).2.trace = [] :=
  ⟨by decide, by decide,
    ((mixed_or_unstatable_roots_abort stackCollab mixedEnv ⟨sampleFs, [], 18⟩
      ⟨"/src/before", "/src/after/shot.png"⟩ rfl (Or.inl ⟨by decide, by decide⟩)).2).1,
    ((mixed_or_unstatable_roots_abort stackCollab mixedEnv ⟨sampleFs, [], 18⟩
      ⟨"/src/before", "/src/after/shot.png"⟩ rfl (Or.inl ⟨by decide, by decide⟩)).2).2.1⟩

/-- C2, counterexample to the claim as stated: on `sampleFs` the before root
`/src/diff_image_output` cannot be stat-ed when the run starts. It is the
output directory, so `main` creates it (mode `0755` under the umask `022`)
before it validates the roots; the after root is a directory of the same mode,
validation succeeds, and for every collaborator the run exits with code 0
after two `generateDiffImage` calls. -/
theorem unstatable_root_created_by_main :
    outputRootEnv.parse = .ok ⟨"/src/diff_image_output", "/src/after"⟩ ∧
    outputDirOf outputRootEnv = "/src/diff_image_output" ∧
    statNode (sampleFs "/src/diff_image_output") = .error .notExist ∧
    (validateFileModes (prepareOutputDir ⟨sampleFs, [], 18⟩ (outputDirOf outputRootEnv))
      "/src/diff_image_output" "/src/after").1 = .ok (ModeDir + 493) ∧
    (∀ c : Collab,
      (main c outputRootEnv ⟨sampleFs, [], 18⟩).1 = 0 ∧
      calls (main c outputRootEnv ⟨sampleFs, [], 18⟩).2.trace =
        [("/src/diff_image_output/new.png", "/src/after/new.png"),
         ("/src/diff_image_output/shot.png", "/src/after/shot.png")]) := by
  refine ⟨rfl, by decide, by decide, by decide, ?_⟩
  intro c
  constructor
  · rw [main_of_listing c outputRootEnv ⟨sampleFs, [], 18⟩
      ⟨"/src/diff_image_output", "/src/after"⟩ (ModeDir + 493)
      ["new.png", "notes.txt", "shot.png", "up.PNG"] rfl (by decide) (by decide) (by decide),
      (exportAndExit_obs _ _ _).1]
    rfl
  · rw [main_listing_calls c outputRootEnv ⟨sampleFs, [], 18⟩
      ⟨"/src/diff_image_output", "/src/after"⟩ (ModeDir + 493)
      ["new.png", "notes.txt", "shot.png", "up.PNG"] rfl (by decide) (by decide) (by decide)]
    decide

/-! ## C3: validation compares whole modes -/

/-- C3, as amended. `validateFileModes` returns a mode `m` without error exactly
when both roots can be stat-ed and both have mode `m` (the same kind and the
same remaining mode bits); the returned mode then has `IsDir` true exactly
when the roots are directories. -/
theorem validateFileModes_ok_iff_equal_modes (w : World) (before after : Path) (m : FileMode) :
    ((validateFileModes w before after).1 = .ok m ↔
      statNode (w.fs before) = .ok m ∧ statNode (w.fs after) = .ok m) ∧
    ((validateFileModes w before after).1 = .ok m →
      IsDir m = (w.fs before).isDir ∧ IsDir m = (w.fs after).isDir) := by
  refine ⟨validateFileModes_ok_iff_aux w before after m, ?_⟩
  intro h
  obtain ⟨hb, ha⟩ := (validateFileModes_ok_iff_aux w before after m).1 h
  exact ⟨statNode_isDir hb, statNode_isDir ha⟩

/-- Witness for C3 on `sampleFs`: the two directories have equal modes, so
validation succeeds and returns a directory mode. -/
theorem validateFileModes_ok_iff_equal_modes_witness :
    (validateFileModes ⟨sampleFs, [], 18⟩ "/src/before" "/src/after").1 = .ok (ModeDir + 493) ∧
    IsDir (ModeDir + 493) = (sampleFs "/src/before").isDir :=
  ⟨(validateFileModes_ok_iff_equal_modes ⟨sampleFs, [], 18⟩ "/src/before" "/src/after"
      (ModeDir + 493)).1.2 ⟨by decide, by decide⟩,
    ((validateFileModes_ok_iff_equal_modes ⟨sampleFs, [], 18⟩ "/src/before" "/src/after"
      (ModeDir + 493)).2 (by decide)).1⟩

/-- C3, counterexample to the claim as stated: both roots can be stat-ed and
both are regular files, yet validation fails because their permission bits
differ. -/
theorem validateFileModes_rejects_same_kind :
    (permFs "b.png").isFile = true ∧ (permFs "a.png").isFile = true ∧
    statNode (permFs "b.png") = .ok 420 ∧ statNode (permFs "a.png") = .ok 384 ∧
    (validateFileModes ⟨permFs, [], 18⟩ "b.png" "a.png").1 = .error .modeMismatch := by
  refine ⟨by decide, by decide, by decide, by decide, by decide⟩

/-! ## C5: a missing source image is replaced by an empty image -/

/-- C5. For a path that does not exist, `loadImage` returns the empty image
with bounds (0,0)-(0,0) and no error, and its only call is the `stat` (nothing
is opened or decoded). Hence `generateDiffImage` on a pair whose before path is
missing proceeds to the after image: it returns the error of the after load if
that fails, and otherwise decides and saves with the empty before image. -/
theorem loadImage_missing_is_empty (c : Collab) (w : World) (p : Path)
    (h : w.fs p = .absent) :
    loadImage c w p = (.ok emptyImage, w.log (.stat p)) ∧
    emptyImage.bounds = ⟨⟨0, 0⟩, ⟨0, 0⟩⟩ ∧
    (∀ afterFn outputDir e w2,
      loadImage c ((w.log (.generate p afterFn outputDir)).log (.stat p)) afterFn
          = (.error e, w2) →
        generateDiffImage c w p afterFn outputDir = (some e, w2)) ∧
    (∀ afterFn outputDir afterImage w2,
      loadImage c ((w.log (.generate p afterFn outputDir)).log (.stat p)) afterFn
          = (.ok afterImage, w2) →
        generateDiffImage c w p afterFn outputDir =
          if emptyImage.bounds = (c.diff emptyImage afterImage).bounds then (none, w2)
          else saveImage c w2 (c.diff emptyImage afterImage)
            (pathJoin outputDir (pathBase afterFn))) := by
  refine ⟨loadImage_absent c w p h, by decide, ?_, ?_⟩
  · intro afterFn outputDir e w2 ha
    unfold generateDiffImage
    rw [loadImage_absent c (w.log (.generate p afterFn outputDir)) p (by simpa using h)]
    simp only [ha]
  · intro afterFn outputDir afterImage w2 ha
    unfold generateDiffImage
    rw [loadImage_absent c (w.log (.generate p afterFn outputDir)) p (by simpa using h)]
    simp only [ha]
    split
    · rfl
    · rcases saveImage c w2 (c.diff emptyImage afterImage)
        (pathJoin outputDir (pathBase afterFn)) with ⟨r, w3⟩
      cases r <;> rfl

/-- Witness for C5: `new.png` exists on the after side of `sampleFs` only. -/
theorem loadImage_missing_is_empty_witness :
    sampleFs "/src/before/new.png" = .absent ∧
    loadImage stackCollab ⟨sampleFs, [], 18⟩ "/src/before/new.png" =
      (.ok emptyImage, (⟨sampleFs, [], 18⟩ : World).log (.stat "/src/before/new.png")) :=
  ⟨by decide,
    (loadImage_missing_is_empty stackCollab ⟨sampleFs, [], 18⟩ "/src/before/new.png"
      (by decide)).1⟩

/-! ## C1: when `generateDiffImage` writes -/

/-- C1, as amended. When both loads succeed, `generateDiffImage` writes a file
exactly when the bounds of the before image and of the diff artifact differ
and the destination `path.Join(outputDir, path.Base(afterFn))` can be opened
for writing. With equal bounds it returns nil and leaves the file system
unchanged; with different bounds and a destination whose opening fails with
an error it returns that very error and leaves the file system unchanged;
otherwise it returns nil, the one file it writes is the destination, which
then is a regular file holding what the encoder wrote, and every other path
keeps its node. -/
theorem generateDiffImage_writes_iff (c : Collab) (w : World)
    (beforeFn afterFn outputDir : Path) (beforeImage afterImage : Image)
    (hb : (loadImage c w beforeFn).1 = .ok beforeImage)
    (ha : (loadImage c w afterFn).1 = .ok afterImage) :
    (written (generateDiffImage c w beforeFn afterFn outputDir).2.trace ≠ written w.trace ↔
      beforeImage.bounds ≠ (c.diff beforeImage afterImage).bounds ∧
        (osOpenFile w (pathJoin outputDir (pathBase afterFn))).1 = .ok ()) ∧
    (beforeImage.bounds = (c.diff beforeImage afterImage).bounds →
      (generateDiffImage c w beforeFn afterFn outputDir).1 = none ∧
      (generateDiffImage c w beforeFn afterFn outputDir).2.fs = w.fs) ∧
    (beforeImage.bounds ≠ (c.diff beforeImage afterImage).bounds →
      ∀ e, (osOpenFile w (pathJoin outputDir (pathBase afterFn))).1 = .error e →
      (generateDiffImage c w beforeFn afterFn outputDir).1 = some e ∧
      (generateDiffImage c w beforeFn afterFn outputDir).2.fs = w.fs ∧
      written (generateDiffImage c w beforeFn afterFn outputDir).2.trace = written w.trace) ∧
    (beforeImage.bounds ≠ (c.diff beforeImage afterImage).bounds →
      (osOpenFile w (pathJoin outputDir (pathBase afterFn))).1 = .ok () →
      (generateDiffImage c w beforeFn afterFn outputDir).1 = none ∧
      written (generateDiffImage c w beforeFn afterFn outputDir).2.trace =
        written w.trace ++ [pathJoin outputDir (pathBase afterFn)] ∧
      (generateDiffImage c w beforeFn afterFn outputDir).2.fs
          (pathJoin outputDir (pathBase afterFn)) =
        savedNode w.umask (c.encode (c.diff beforeImage afterImage)).1
          (w.fs (pathJoin outputDir (pathBase afterFn))) ∧
      ((generateDiffImage c w beforeFn afterFn outputDir).2.fs
          (pathJoin outputDir (pathBase afterFn))).isFile = true ∧
      ∀ q, q ≠ pathJoin outputDir (pathBase afterFn) →
        (generateDiffImage c w beforeFn afterFn outputDir).2.fs q = w.fs q) := by
  obtain ⟨h1, h2, _, h4⟩ :=
    writes_iff_of_loads c w beforeFn afterFn outputDir beforeImage afterImage hb ha
  obtain ⟨_, hk1, hk2, _⟩ := generateDiffImage_spec c w beforeFn afterFn outputDir
  have hkept : beforeImage.bounds ≠ (c.diff beforeImage afterImage).bounds →
      keptArtifact c w beforeFn afterFn = some (c.diff beforeImage afterImage) := by
    intro hbd
    simp [keptArtifact, hb, ha, hbd]
  refine ⟨?_, h2, ?_, ?_⟩
  · rw [h1, osOpenFile_ok_iff]
  · intro hbd e he
    have hfail : canOpen w.fs (pathJoin outputDir (pathBase afterFn)) = false :=
      (osOpenFile_fails_iff _ _).1 (by rw [he]; exact fun h => by cases h)
    have hres := generateDiffImage_kept_result c w beforeFn afterFn outputDir _ (hkept hbd)
    rw [he] at hres
    exact ⟨hres, (hk2 _ (hkept hbd) hfail).2.1, (hk2 _ (hkept hbd) hfail).2.2⟩
  · intro hbd ho
    have hopen := (osOpenFile_ok_iff _ _).1 ho
    obtain ⟨g1, g2, g3⟩ := hk1 _ (hkept hbd) hopen
    have hdest := g2 (pathJoin outputDir (pathBase afterFn))
    rw [if_pos rfl] at hdest
    refine ⟨g1, g3, hdest, ?_, (h4 hbd hopen).2.2⟩
    rw [hdest]
    exact savedNode_isFile _ _ _

/-- Witness for C1 on `readyFs`: the pair for `shot.png` is written. -/
theorem generateDiffImage_writes_iff_witness :
    (loadImage stackCollab ⟨readyFs, [], 18⟩ "/src/before/shot.png").1
      = .ok { bounds := Rect 0 0 1 1, pix := [7] } ∧
    (loadImage stackCollab ⟨readyFs, [], 18⟩ "/src/after/shot.png").1
      = .ok { bounds := Rect 0 0 1 1, pix := [8] } ∧
    (written (generateDiffImage stackCollab ⟨readyFs, [], 18⟩ "/src/before/shot.png"
        "/src/after/shot.png" "/src/diff_image_output").2.trace ≠ written [] ↔
      (Rect 0 0 1 1) ≠
          (stackCollab.diff { bounds := Rect 0 0 1 1, pix := [7] }
            { bounds := Rect 0 0 1 1, pix := [8] }).bounds ∧
        (osOpenFile ⟨readyFs, [], 18⟩
          (pathJoin "/src/diff_image_output" (pathBase "/src/after/shot.png"))).1 = .ok ()) :=
  ⟨by decide, by decide,
    (generateDiffImage_writes_iff stackCollab ⟨readyFs, [], 18⟩ "/src/before/shot.png"
      "/src/after/shot.png" "/src/diff_image_output"
      { bounds := Rect 0 0 1 1, pix := [7] } { bounds := Rect 0 0 1 1, pix := [8] }
      (by decide) (by decide)).1⟩

/-- C1, counterexample to the claim as stated: the output directory
`/gone/diff_image_output` does not exist on `sampleFs`, and the step of `main`
that creates it fails because `/gone` does not exist either. Both loads
succeed and the bounds of the before image and of the diff artifact differ,
yet no file is written and the destination stays absent: `generateDiffImage`
returns the error of `os.OpenFile`. -/
theorem generateDiffImage_no_write_without_output_dir :
    (prepareOutputDir ⟨sampleFs, [], 18⟩ "/gone/diff_image_output").fs "/gone/diff_image_output"
      = .absent ∧
    (loadImage stackCollab ⟨sampleFs, [], 18⟩ "/src/before/shot.png").1
      = .ok { bounds := Rect 0 0 1 1, pix := [7] } ∧
    (loadImage stackCollab ⟨sampleFs, [], 18⟩ "/src/after/shot.png").1
      = .ok { bounds := Rect 0 0 1 1, pix := [8] } ∧
    Rect 0 0 1 1 ≠
      (stackCollab.diff { bounds := Rect 0 0 1 1, pix := [7] }
        { bounds := Rect 0 0 1 1, pix := [8] }).bounds ∧
    (generateDiffImage stackCollab ⟨sampleFs, [], 18⟩ "/src/before/shot.png"
      "/src/after/shot.png" "/gone/diff_image_output").1 = some .notExist ∧
    written (generateDiffImage stackCollab ⟨sampleFs, [], 18⟩ "/src/before/shot.png"
      "/src/after/shot.png" "/gone/diff_image_output").2.trace = [] ∧
    (generateDiffImage stackCollab ⟨sampleFs, [], 18⟩ "/src/before/shot.png"
      "/src/after/shot.png" "/gone/diff_image_output").2.fs "/gone/diff_image_output/shot.png"
      = .absent := by
  refine ⟨by decide, by decide, by decide, by decide, by decide, by decide, by decide⟩

/-! ## C9: a changed pair is written when the collaborator reports the change -/

/-- C9, as amended. Take a diff collaborator that reports every difference in
the bounds of its artifact: for two images that differ, the artifact's bounds
differ from those of the before image. Then for a pair of loadable images
where the after image differs from the before image, `generateDiffImage`
writes exactly one file when the destination
`path.Join(outputDir, path.Base(afterFn))` can be opened: it returns nil, the
destination is afterwards a regular file holding what the encoder wrote, and
no other path changes. When opening the destination fails it returns that
error and writes nothing. -/
theorem generateDiffImage_changed_pair (c : Collab) (w : World)
    (beforeFn afterFn outputDir : Path) (beforeImage afterImage : Image)
    (hb : (loadImage c w beforeFn).1 = .ok beforeImage)
    (ha : (loadImage c w afterFn).1 = .ok afterImage)
    (hcontent : afterImage ≠ beforeImage)
    (hreports : ∀ b a : Image, a ≠ b → b.bounds ≠ (c.diff b a).bounds) :
    ((osOpenFile w (pathJoin outputDir (pathBase afterFn))).1 = .ok () →
      (generateDiffImage c w beforeFn afterFn outputDir).1 = none ∧
      written (generateDiffImage c w beforeFn afterFn outputDir).2.trace =
        written w.trace ++ [pathJoin outputDir (pathBase afterFn)] ∧
      (generateDiffImage c w beforeFn afterFn outputDir).2.fs
          (pathJoin outputDir (pathBase afterFn)) =
        savedNode w.umask (c.encode (c.diff beforeImage afterImage)).1
          (w.fs (pathJoin outputDir (pathBase afterFn))) ∧
      ((generateDiffImage c w beforeFn afterFn outputDir).2.fs
          (pathJoin outputDir (pathBase afterFn))).isFile = true ∧
      ∀ q, q ≠ pathJoin outputDir (pathBase afterFn) →
        (generateDiffImage c w beforeFn afterFn outputDir).2.fs q = w.fs q) ∧
    (∀ e, (osOpenFile w (pathJoin outputDir (pathBase afterFn))).1 = .error e →
      (generateDiffImage c w beforeFn afterFn outputDir).1 = some e ∧
      written (generateDiffImage c w beforeFn afterFn outputDir).2.trace = written w.trace ∧
      (generateDiffImage c w beforeFn afterFn outputDir).2.fs = w.fs) := by
  have hbd := hreports beforeImage afterImage hcontent
  obtain ⟨_, hk1, hk2, _⟩ := generateDiffImage_spec c w beforeFn afterFn outputDir
  have hkept : keptArtifact c w beforeFn afterFn = some (c.diff beforeImage afterImage) := by
    simp [keptArtifact, hb, ha, hbd]
  constructor
  · intro ho
    obtain ⟨g1, g2, g3⟩ := hk1 _ hkept ((osOpenFile_ok_iff _ _).1 ho)
    have hdest := g2 (pathJoin outputDir (pathBase afterFn))
    rw [if_pos rfl] at hdest
    refine ⟨g1, g3, hdest, ?_, ?_⟩
    · rw [hdest]
      exact savedNode_isFile _ _ _
    · intro q hq
      rw [g2 q, if_neg hq]
  · intro e he
    have hfail : canOpen w.fs (pathJoin outputDir (pathBase afterFn)) = false :=
      (osOpenFile_fails_iff _ _).1 (by rw [he]; exact fun h => by cases h)
    have hres := generateDiffImage_kept_result c w beforeFn afterFn outputDir _ hkept
    rw [he] at hres
    exact ⟨hres, (hk2 _ hkept hfail).2.2, (hk2 _ hkept hfail).2.1⟩

/-- The sample diff `tallerDiff` reports every difference in the bounds. -/
theorem tallerDiff_reports (b a : Image) (h : a ≠ b) :
    b.bounds ≠ (tallerCollab.diff b a).bounds := by
  intro hb
  have hne : ¬ b = a := fun e => h e.symm
  simp only [tallerCollab, tallerDiff, hne, if_false] at hb
  have hy := congrArg (fun r => r.Max.Y) hb
  simp only at hy
  omega

/-- Witness for C9 on `readyFs` with a diff that reports every difference in
the bounds: the file for the changed pair `shot.png` is written. -/
theorem generateDiffImage_changed_pair_witness :
    (loadImage tallerCollab ⟨readyFs, [], 18⟩ "/src/before/shot.png").1
      = .ok { bounds := Rect 0 0 1 1, pix := [7] } ∧
    (loadImage tallerCollab ⟨readyFs, [], 18⟩ "/src/after/shot.png").1
      = .ok { bounds := Rect 0 0 1 1, pix := [8] } ∧
    (osOpenFile ⟨readyFs, [], 18⟩
      (pathJoin "/src/diff_image_output" (pathBase "/src/after/shot.png"))).1 = .ok () ∧
    written (generateDiffImage tallerCollab ⟨readyFs, [], 18⟩ "/src/before/shot.png"
        "/src/after/shot.png" "/src/diff_image_output").2.trace =
      written [] ++ [pathJoin "/src/diff_image_output" (pathBase "/src/after/shot.png")] :=
  ⟨by decide, by decide, by decide,
    ((generateDiffImage_changed_pair tallerCollab ⟨readyFs, [], 18⟩ "/src/before/shot.png"
      "/src/after/shot.png" "/src/diff_image_output"
      { bounds := Rect 0 0 1 1, pix := [7] } { bounds := Rect 0 0 1 1, pix := [8] }
      (by decide) (by decide) (by decide) tallerDiff_reports).1 (by decide)).2.1⟩

/-- C9, counterexample to the claim as stated: the two images of the pair
`shot.png` on `sampleFs` load, have the same dimensions and differ in their
one pixel, and the output directory `/gone/diff_image_output` does not exist.
Whatever the diff library and the encoder return, no file is written and the
destination stays absent. -/
theorem changed_pair_not_written_without_output_dir :
    ({ bounds := Rect 0 0 1 1, pix := [8] } : Image) ≠ { bounds := Rect 0 0 1 1, pix := [7] } ∧
    (osOpenFile ⟨sampleFs, [], 18⟩ "/gone/diff_image_output/shot.png").1 = .error .notExist ∧
    (∀ (diff : Image → Image → Image) (encode : Image → List Nat × Option Err),
      (loadImage ⟨sampleDecode, encode, diff⟩ ⟨sampleFs, [], 18⟩ "/src/before/shot.png").1
        = .ok { bounds := Rect 0 0 1 1, pix := [7] } ∧
      (loadImage ⟨sampleDecode, encode, diff⟩ ⟨sampleFs, [], 18⟩ "/src/after/shot.png").1
        = .ok { bounds := Rect 0 0 1 1, pix := [8] } ∧
      written (generateDiffImage ⟨sampleDecode, encode, diff⟩ ⟨sampleFs, [], 18⟩
        "/src/before/shot.png" "/src/after/shot.png" "/gone/diff_image_output").2.trace = [] ∧
      (generateDiffImage ⟨sampleDecode, encode, diff⟩ ⟨sampleFs, [], 18⟩
        "/src/before/shot.png" "/src/after/shot.png" "/gone/diff_image_output").2.fs
          "/gone/diff_image_output/shot.png" = .absent) := by
  refine ⟨by decide, by decide, ?_⟩
  intro diff encode
  have hno : canOpen sampleFs (pathJoin "/gone/diff_image_output"
      (pathBase "/src/after/shot.png")) = false := by decide
  refine ⟨rfl, rfl, ?_, ?_⟩
  · rcases generateDiffImage_cases ⟨sampleDecode, encode, diff⟩ ⟨sampleFs, [], 18⟩
      "/src/before/shot.png" "/src/after/shot.png" "/gone/diff_image_output"
      with ⟨_, ht, _⟩ | ⟨d, _, ho, _, _⟩
    · rw [ht]; rfl
    · rw [hno] at ho; cases ho
  · rcases generateDiffImage_cases ⟨sampleDecode, encode, diff⟩ ⟨sampleFs, [], 18⟩
      "/src/before/shot.png" "/src/after/shot.png" "/gone/diff_image_output"
      with ⟨hf, _, _⟩ | ⟨d, _, ho, _, _⟩
    · rw [hf]; decide
    · rw [hno] at ho; cases ho

/-! ## C6: the destination is not truncated -/

/-- C6, evaluation at the failing input: the destination holds six bytes from
an earlier run, the encoder writes the three bytes `[1, 1, 5]`, `saveImage`
returns nil, and the file then holds the three new bytes followed by the last
three old ones. For every encoder, artifact and earlier content alike, the
file afterwards holds the written bytes followed by the earlier bytes beyond
their length. -/
theorem saveImage_keeps_stale_tail :
    staleFs "/src/diff_image_output/shot.png" = .file 420 [9, 9, 9, 9, 9, 9] ∧
    stackCollab.encode { bounds := Rect 0 0 1 1, pix := [5] } = ([1, 1, 5], none) ∧
    (saveImage stackCollab ⟨staleFs, [], 18⟩ { bounds := Rect 0 0 1 1, pix := [5] }
      "/src/diff_image_output/shot.png").1 = none ∧
    (saveImage stackCollab ⟨staleFs, [], 18⟩ { bounds := Rect 0 0 1 1, pix := [5] }
      "/src/diff_image_output/shot.png").2.fs "/src/diff_image_output/shot.png"
      = .file 420 [1, 1, 5, 9, 9, 9] ∧
    (∀ (c : Collab) (img : Image) (bits : Nat) (data : List Nat) (fs : Path → Node)
        (t : List Event) (um : Nat),
      (saveImage c ⟨fun q => if q = "out.png" then .file bits data else fs q, t, um⟩ img
        "out.png").2.fs "out.png" =
        .file bits ((c.encode img).1 ++ data.drop (c.encode img).1.length)) := by
  refine ⟨by decide, by decide, by decide, by decide, ?_⟩
  intro c img bits data fs t um
  simp [saveImage, osOpenFile, pngEncode, writeNode, overwrite]

/-! ## C7: the error of `png.Encode` is dropped -/

/-- C7, evaluation at the failing input: the encoder reports an error for the
kept artifact, `saveImage` returns nil, and so does `generateDiffImage` for
the pair. In general the value `saveImage` returns is the error of
`os.OpenFile`, if any, whatever the encoder returns. -/
theorem saveImage_drops_encode_error :
    keptArtifact failingEncodeCollab ⟨readyFs, [], 18⟩ "/src/before/shot.png"
      "/src/after/shot.png" = some { bounds := Rect 0 0 1 2, pix := [7, 8] } ∧
    (pngEncode failingEncodeCollab ⟨readyFs, [], 18⟩ "/src/diff_image_output/shot.png"
      { bounds := Rect 0 0 1 2, pix := [7, 8] }).1 = some .encode ∧
    (saveImage failingEncodeCollab ⟨readyFs, [], 18⟩ { bounds := Rect 0 0 1 2, pix := [7, 8] }
      "/src/diff_image_output/shot.png").1 = none ∧
    (generateDiffImage failingEncodeCollab ⟨readyFs, [], 18⟩ "/src/before/shot.png"
      "/src/after/shot.png" "/src/diff_image_output").1 = none ∧
    (∀ (c : Collab) (w : World) (img : Image) (fileName : Path),
      (saveImage c w img fileName).1 =
        match (osOpenFile w fileName).1 with
        | .error e => some e
        | .ok _ => none) := by
  refine ⟨by decide, by decide, by decide, by decide, ?_⟩
  intro c w img fileName
  unfold saveImage
  rcases osOpenFile w fileName with ⟨r, w1⟩
  cases r <;> rfl

/-! ## C4: the pairs of collection mode -/

/-- C4. In collection mode (validation succeeded with a directory mode), for
every listing `names` of the after root, the `generateDiffImage` calls of the
run are, in listing order, the names whose `filepath.Ext` is exactly `.png`,
each mapped to `(path.Join(before, name), path.Join(after, name))`. -/
theorem collection_mode_calls (c : Collab) (env : Env) (w : World) (conf : Config)
    (m : FileMode) (names : List String)
    (hparse : env.parse = .ok conf)
    (hv : (validateFileModes (prepareOutputDir w (outputDirOf env))
      conf.BeforeImages conf.AfterImages).1 = .ok m)
    (hdir : IsDir m = true)
    (hlist : readDirNode ((prepareOutputDir w (outputDirOf env)).fs conf.AfterImages)
      = .ok names) :
    calls (main c env w).2.trace =
      calls w.trace ++
        (names.filter (fun name => decide (filepathExt name = ".png"))).map
          (fun name => (pathJoin conf.BeforeImages name, pathJoin conf.AfterImages name)) :=
  main_listing_calls c env w conf m names hparse hv hdir hlist

/-- Witness for C4 on `sampleFs`: of `new.png`, `notes.txt`, `shot.png` and
`up.PNG`, the entries `new.png` and `shot.png` are processed, in that order. -/
theorem collection_mode_calls_witness :
    readDirNode ((prepareOutputDir ⟨sampleFs, [], 18⟩ (outputDirOf dirEnv)).fs "/src/after")
      = .ok ["new.png", "notes.txt", "shot.png", "up.PNG"] ∧
    calls (main stackCollab dirEnv ⟨sampleFs, [], 18⟩).2.trace =
      [("/src/before/new.png", "/src/after/new.png"),
       ("/src/before/shot.png", "/src/after/shot.png")] :=
  ⟨by decide,
    (collection_mode_calls stackCollab dirEnv ⟨sampleFs, [], 18⟩
      ⟨"/src/before", "/src/after"⟩ (ModeDir + 493) ["new.png", "notes.txt", "shot.png", "up.PNG"]
      rfl (by decide) (by decide) (by decide)).trans (by decide)⟩

/-! ## C8: the exit code -/

/-- C8. When the configuration parses, the exit code of `main` is 1 if the
validation of the roots fails, 1 if the roots are directories and the listing
of the after root fails, and otherwise 1 or 0 according to whether the
`envman` export fails or succeeds. It is the same for all collaborators, hence
for all results of the `generateDiffImage` calls; and in collection mode
`generateDiffImage` is called for every resolved pair of the listing, whatever
the earlier calls returned. -/
theorem main_exit_code (c : Collab) (env : Env) (w : World) (conf : Config)
    (hparse : env.parse = .ok conf) :
    (main c env w).1 =
      (match (validateFileModes (prepareOutputDir w (outputDirOf env))
          conf.BeforeImages conf.AfterImages).1 with
        | .error _ => 1
        | .ok m =>
          if IsDir m = true then
            match readDirNode ((prepareOutputDir w (outputDirOf env)).fs conf.AfterImages) with
            | .error _ => 1
            | .ok _ => if env.envman (outputDirOf env) = true then 0 else 1
          else if env.envman (outputDirOf env) = true then 0 else 1) ∧
    (∀ c2 : Collab, (main c2 env w).1 = (main c env w).1) ∧
    (∀ m names,
      (validateFileModes (prepareOutputDir w (outputDirOf env))
        conf.BeforeImages conf.AfterImages).1 = .ok m →
      IsDir m = true →
      readDirNode ((prepareOutputDir w (outputDirOf env)).fs conf.AfterImages) = .ok names →
      calls (main c env w).2.trace =
        calls w.trace ++
          (names.filter (fun name => decide (filepathExt name = ".png"))).map
            (fun name =>
              (pathJoin conf.BeforeImages name, pathJoin conf.AfterImages name))) := by
  have key : ∀ c1 : Collab, (main c1 env w).1 =
      (match (validateFileModes (prepareOutputDir w (outputDirOf env))
          conf.BeforeImages conf.AfterImages).1 with
        | .error _ => 1
        | .ok m =>
          if IsDir m = true then
            match readDirNode ((prepareOutputDir w (outputDirOf env)).fs conf.AfterImages) with
            | .error _ => 1
            | .ok _ => if env.envman (outputDirOf env) = true then 0 else 1
          else if env.envman (outputDirOf env) = true then 0 else 1) := by
    intro c1
    cases hv : (validateFileModes (prepareOutputDir w (outputDirOf env))
        conf.BeforeImages conf.AfterImages).1 with
    | error e => rw [main_of_validate_error c1 env w conf hparse e hv]
    | ok m =>
      cases hdir : IsDir m with
      | true =>
        cases hlist : readDirNode
            ((prepareOutputDir w (outputDirOf env)).fs conf.AfterImages) with
        | error e =>
          rw [main_of_listing_error c1 env w conf m e hparse hv hdir hlist]
          simp [hdir]
        | ok names =>
          rw [main_of_listing c1 env w conf m names hparse hv hdir hlist,
            (exportAndExit_obs _ _ _).1]
          simp [hdir]
      | false =>
        rw [main_of_single c1 env w conf m hparse hv hdir, (exportAndExit_obs _ _ _).1]
        simp [hdir]
  refine ⟨key c, fun c2 => (key c2).trans (key c).symm, ?_⟩
  intro m names hv hdir hlist
  exact main_listing_calls c env w conf m names hparse hv hdir hlist

/-- Witness for C8 on `brokenFs`: the pair for the corrupt `new.png` returns a
decode error, the pair for `shot.png` is still processed, and the run exits
with code 0. -/
theorem main_exit_code_witness :
    dirEnv.parse = .ok ⟨"/src/before", "/src/after"⟩ ∧
    (loadImage stackCollab ⟨brokenFs, [], 18⟩ "/src/after/new.png").1 = .error .decode ∧
    (main stackCollab dirEnv ⟨brokenFs, [], 18⟩).1 = 0 ∧
    calls (main stackCollab dirEnv ⟨brokenFs, [], 18⟩).2.trace =
      [("/src/before/new.png", "/src/after/new.png"),
       ("/src/before/shot.png", "/src/after/shot.png")] :=
  ⟨rfl, by decide,
    (main_exit_code stackCollab dirEnv ⟨brokenFs, [], 18⟩ ⟨"/src/before", "/src/after"⟩ rfl).1.trans
      (by decide),
    by decide⟩

/-! ## C10: running the pipeline twice -/

theorem second_run_of_parsed (c : Collab) (env : Env) (fs : Path → Node) (u : Nat)
    (conf : Config) (hparse : env.parse = .ok conf)
    (hin : ∀ p ∈ conf.BeforeImages :: conf.AfterImages ::
        pairPaths (calls (main c env ⟨fs, [], u⟩).2.trace),
      (main c env ⟨fs, [], u⟩).2.fs p = fs p) :
    written (main c env ⟨(main c env ⟨fs, [], u⟩).2.fs, [], u⟩).2.trace =
      written (main c env ⟨fs, [], u⟩).2.trace ∧
    ∀ p, (main c env ⟨(main c env ⟨fs, [], u⟩).2.fs, [], u⟩).2.fs p = .absent ↔
      (main c env ⟨fs, [], u⟩).2.fs p = .absent := by
  have hprep := second_prepare_noop c env fs u conf hparse []
  have hag : ∀ p ∈ conf.BeforeImages :: conf.AfterImages ::
      pairPaths (calls (main c env ⟨fs, [], u⟩).2.trace),
      (prepareOutputDir ⟨fs, [], u⟩ (outputDirOf env)).fs p = (main c env ⟨fs, [], u⟩).2.fs p :=
    fun p hp => first_prepare_agrees c env fs u conf hparse p (hin p hp)
  obtain ⟨-, hO⟩ := main_run_facts c env ⟨fs, [], u⟩ conf hparse
  generalize hF : (main c env ⟨fs, [], u⟩).2.fs = F at hprep hag hO ⊢
  have hb := hag conf.BeforeImages (List.mem_cons_self _ _)
  have ha := hag conf.AfterImages (List.mem_cons_of_mem _ (List.mem_cons_self _ _))
  have hvc := validateFileModes_fst_congr (prepareOutputDir ⟨fs, [], u⟩ (outputDirOf env))
    (prepareOutputDir ⟨F, [], u⟩ (outputDirOf env)) conf.BeforeImages conf.AfterImages
    (by rw [hprep]; exact hb) (by rw [hprep]; exact ha)
  have hfs1 := validateFileModes_fs (prepareOutputDir ⟨fs, [], u⟩ (outputDirOf env))
    conf.BeforeImages conf.AfterImages
  have hfs2 := validateFileModes_fs (prepareOutputDir ⟨F, [], u⟩ (outputDirOf env))
    conf.BeforeImages conf.AfterImages
  rw [hprep] at hfs2
  have hw1 : written (validateFileModes (prepareOutputDir ⟨fs, [], u⟩ (outputDirOf env))
      conf.BeforeImages conf.AfterImages).2.trace = [] := by
    rw [(validateFileModes_trace _ _ _).2, (prepareOutputDir_trace _ _).2]; rfl
  have hw2 : written (validateFileModes (prepareOutputDir ⟨F, [], u⟩ (outputDirOf env))
      conf.BeforeImages conf.AfterImages).2.trace = [] := by
    rw [(validateFileModes_trace _ _ _).2, (prepareOutputDir_trace _ _).2]; rfl
  cases hv : (validateFileModes (prepareOutputDir ⟨fs, [], u⟩ (outputDirOf env))
      conf.BeforeImages conf.AfterImages).1 with
  | error e =>
    rw [main_of_validate_error c env ⟨F, [], u⟩ conf hparse e (by rw [← hvc]; exact hv),
      main_of_validate_error c env ⟨fs, [], u⟩ conf hparse e hv]
    refine ⟨by rw [hw1, hw2], fun p => ?_⟩
    rw [hfs2]
  | ok m =>
    have hv2 : (validateFileModes (prepareOutputDir ⟨F, [], u⟩ (outputDirOf env))
        conf.BeforeImages conf.AfterImages).1 = .ok m := by rw [← hvc]; exact hv
    cases hdir : IsDir m with
    | true =>
      have hl : readDirNode ((prepareOutputDir ⟨F, [], u⟩ (outputDirOf env)).fs
          conf.AfterImages) = readDirNode ((prepareOutputDir ⟨fs, [], u⟩ (outputDirOf env)).fs
          conf.AfterImages) := by rw [hprep, ha]
      cases hlist : readDirNode
          ((prepareOutputDir ⟨fs, [], u⟩ (outputDirOf env)).fs conf.AfterImages) with
      | error e =>
        rw [main_of_listing_error c env ⟨F, [], u⟩ conf m e hparse hv2 hdir (by rw [hl]; exact hlist),
          main_of_listing_error c env ⟨fs, [], u⟩ conf m e hparse hv hdir hlist]
        refine ⟨by simp [written_append, written, hw1, hw2], fun p => ?_⟩
        rw [log_fs, hfs2]
      | ok names =>
        have hcalls := main_listing_calls c env ⟨fs, [], u⟩ conf m names hparse hv hdir hlist
        have e1 := main_of_listing c env ⟨fs, [], u⟩ conf m names hparse hv hdir hlist
        rw [e1, (exportAndExit_obs _ _ _).2.1] at hF
        rw [main_of_listing c env ⟨F, [], u⟩ conf m names hparse hv2 hdir (by rw [hl]; exact hlist),
          e1, (exportAndExit_obs _ _ _).2.2.2, (exportAndExit_obs _ _ _).2.2.2,
          (exportAndExit_obs _ _ _).2.1]
        obtain ⟨⟨delta, hd1, hd2⟩, habs⟩ := processListing_sim c conf.BeforeImages
          conf.AfterImages (outputDirOf env)
          (conf.BeforeImages :: conf.AfterImages ::
            pairPaths (calls (main c env ⟨fs, [], u⟩).2.trace)) names
          ((validateFileModes (prepareOutputDir ⟨fs, [], u⟩ (outputDirOf env))
            conf.BeforeImages conf.AfterImages).2.log (.readDir conf.AfterImages))
          ((validateFileModes (prepareOutputDir ⟨F, [], u⟩ (outputDirOf env))
            conf.BeforeImages conf.AfterImages).2.log (.readDir conf.AfterImages))
          (by
            simp only [log_umask, validateFileModes_umask, prepareOutputDir_umask])
          (by
            intro name hname hext
            have hmem : (pathJoin conf.BeforeImages name, pathJoin conf.AfterImages name) ∈
                calls (main c env ⟨fs, [], u⟩).2.trace := by
              rw [hcalls]
              simp only [calls, List.nil_append, resolvedPairs, List.mem_map, List.mem_filter]
              exact ⟨name, ⟨hname, by simp [hext]⟩, rfl⟩
            have := mem_pairPaths hmem
            exact ⟨List.mem_cons_of_mem _ (List.mem_cons_of_mem _ this.1),
              List.mem_cons_of_mem _ (List.mem_cons_of_mem _ this.2)⟩)
          (by
            intro p hp
            rw [log_fs, log_fs, hfs1, hfs2]
            exact hag p hp)
          (by
            intro q
            rw [log_fs, log_fs, hfs1, hfs2]
            exact (hO q).symm)
          (by
            intro p hp
            rw [hF] at hp
            rw [log_fs, hfs2]
            exact hp)
        refine ⟨?_, fun p => ?_⟩
        · rw [hd1, hd2]
          simp [written_append, written, hw1, hw2]
        · rw [habs p, log_fs, hfs2]
    | false =>
      have hcalls := main_single_calls c env ⟨fs, [], u⟩ conf m hparse hv hdir
      have e1 := main_of_single c env ⟨fs, [], u⟩ conf m hparse hv hdir
      rw [e1, (exportAndExit_obs _ _ _).2.1] at hF
      rw [main_of_single c env ⟨F, [], u⟩ conf m hparse hv2 hdir,
        e1, (exportAndExit_obs _ _ _).2.2.2, (exportAndExit_obs _ _ _).2.2.2,
        (exportAndExit_obs _ _ _).2.1]
      obtain ⟨⟨delta, hd1, hd2⟩, -, hthird⟩ := generateDiffImage_sim c
        (validateFileModes (prepareOutputDir ⟨fs, [], u⟩ (outputDirOf env))
          conf.BeforeImages conf.AfterImages).2
        (validateFileModes (prepareOutputDir ⟨F, [], u⟩ (outputDirOf env))
          conf.BeforeImages conf.AfterImages).2
        conf.BeforeImages conf.AfterImages (outputDirOf env)
        (by simp only [validateFileModes_umask, prepareOutputDir_umask])
        (by rw [hfs1, hfs2]; exact hb) (by rw [hfs1, hfs2]; exact ha)
        (by rw [hfs1, hfs2]; exact (hO _).symm)
      refine ⟨by rw [hd1, hd2, hw1, hw2], fun p => ?_⟩
      constructor
      · intro hp
        have := (generateDiffImage_grows c (validateFileModes
          (prepareOutputDir ⟨F, [], u⟩ (outputDirOf env))
          conf.BeforeImages conf.AfterImages).2 conf.BeforeImages conf.AfterImages
          (outputDirOf env)).absent hp
        rw [hfs2] at this
        exact this
      · intro hp
        rcases hthird with h3 | ⟨h3, h4⟩
        · rw [h3, hfs2]; exact hp
        · by_cases hq : p = pathJoin (outputDirOf env) (pathBase conf.AfterImages)
          · exfalso
            subst hq
            rw [hF] at h3
            exact h3 hp
          · rw [h4 p hq, hfs2]; exact hp

/-- C10. Let a run of `main` start from a file system `fs`, and suppose the
run leaves its inputs unchanged: the before root, the after root and the
before and after file of every pair it processed name the same node after the
run as before it. Then a second run
with the same collaborators, on the file system the first run left, writes the
same output files in the same order, and afterwards exactly the paths that
existed after the first run exist: it adds none and removes none. -/
theorem main_second_run_same_outputs (c : Collab) (env : Env) (fs : Path → Node) (u : Nat)
    (hin : ∀ conf, env.parse = .ok conf →
      ∀ p ∈ conf.BeforeImages :: conf.AfterImages ::
        pairPaths (calls (main c env ⟨fs, [], u⟩).2.trace),
      (main c env ⟨fs, [], u⟩).2.fs p = fs p) :
    written (main c env ⟨(main c env ⟨fs, [], u⟩).2.fs, [], u⟩).2.trace =
      written (main c env ⟨fs, [], u⟩).2.trace ∧
    ∀ p, (main c env ⟨(main c env ⟨fs, [], u⟩).2.fs, [], u⟩).2.fs p = .absent ↔
      (main c env ⟨fs, [], u⟩).2.fs p = .absent := by
  cases hp : env.parse with
  | error e => simp [main, hp]
  | ok conf => exact second_run_of_parsed c env fs u conf hp (hin conf hp)

/-- Witness for C10 on `sampleFs`: the first run creates the output directory
and writes the diffs of `new.png` and `shot.png`; the second run writes the
same two files. -/
theorem main_second_run_same_outputs_witness :
    written (main stackCollab dirEnv ⟨sampleFs, [], 18⟩).2.trace =
      ["/src/diff_image_output/new.png", "/src/diff_image_output/shot.png"] ∧
    written (main stackCollab dirEnv
        ⟨(main stackCollab dirEnv ⟨sampleFs, [], 18⟩).2.fs, [], 18⟩).2.trace =
      written (main stackCollab dirEnv ⟨sampleFs, [], 18⟩).2.trace :=
  ⟨by decide,
    (main_second_run_same_outputs stackCollab dirEnv sampleFs 18
      (fun conf h => by cases h; decide)).1⟩

end DiffImage
